import Mathlib

/-!
Verification of the tcp-sendfile transfer protocol implementation.

Bytes are modelled as natural numbers (values below 256 on the wire),
byte buffers as `List Nat`.  Machine integers (u8/u16/u32/u64/usize) are
modelled as `Nat`; none of the verified arithmetic can overflow its Rust
type on the inputs considered.  External collaborators (the postcard
payload codec, the gzip codec, the CRC library) are modelled as follows:
the postcard wire format is reproduced concretely (varint based, as its
documentation specifies), gzip is an opaque oracle parameter, and
CRC-32/ISO-HDLC is implemented bit by bit from its standard definition.
-/

/-- Transport constant: the current protocol version (`transport.rs`). -/

def CURRENT_PROTOCOL_VERSION : Nat := 1

/-- Transport constant: maximum block size, 4 MiB (`transport.rs`). -/

def MAX_BLOCK_SIZE : Nat := 4 * 1024 * 1024

/-- Transport constant: maximum message size (`transport.rs`). -/

def MAX_MESSAGE_SIZE : Nat := MAX_BLOCK_SIZE + 128

/-- Byte content of the `"Ver: "` header marker (`transport.rs`). -/

def versionHeaderBytes : List Nat := [86, 101, 114, 58, 32]

/-- Byte content of the `"Len: "` header marker (`transport.rs`). -/

def lengthHeaderBytes : List Nat := [76, 101, 110, 58, 32]

/-- Byte content of the CRLF message delimiter (`transport.rs`). -/

def MESSAGE_DELIMITER : List Nat := [13, 10]

/-- Retry bound of the receiver download pass (`receive.rs`). -/

def MAX_RETRIES : Nat := 5

/-- Initial retry delay in milliseconds (`receive.rs`). -/

def INITIAL_RETRY_DELAY_MS : Nat := 500

/-! ### Decimal rendering and parsing

`decBytes` renders a natural number the way Rust's `format!("{}")`
renders an unsigned integer: most significant digit first, no sign, no
leading zeros (except for `0` itself).  `parseDecimal` models
`str::parse` for an unsigned integer type: an optional leading `+`,
then one or more ASCII digits. -/

/-- Accumulator-based decimal rendering, least significant digit pushed first. -/

def decBytesAux (n : Nat) (acc : List Nat) : List Nat :=
  if h : n < 10 then (48 + n) :: acc
  else decBytesAux (n / 10) ((48 + n % 10) :: acc)
termination_by n
decreasing_by exact Nat.div_lt_self (by omega) (by omega)

/-- ASCII bytes of the decimal representation of `n`. -/

def decBytes (n : Nat) : List Nat := decBytesAux n []

/-- Step function for accumulating a decimal value from ASCII digit bytes. -/

def decStep (a b : Nat) : Nat := a * 10 + (b - 48)

/-- Rust `str::parse::<uN>` on a byte list: optional `+`, then digits only. -/

def parseDecimal (bs : List Nat) : Option Nat :=
  let ds := match bs with
    | 43 :: rest => rest
    | _ => bs
  if ds.isEmpty then none
  else if ds.all (fun b => 48 ≤ b && b ≤ 57) then some (ds.foldl decStep 0)
  else none

/-! ### Varint (LEB128) encoding, as used by the postcard wire format -/

/-- Unsigned LEB128 encoding of a natural number (postcard varint). -/

def varintEncode (n : Nat) : List Nat :=
  if h : n < 128 then [n]
  else (n % 128 + 128) :: varintEncode (n / 128)
termination_by n
decreasing_by exact Nat.div_lt_self (by omega) (by omega)

/-- Unsigned LEB128 decoding; returns the value and the remaining bytes. -/

def varintDecode : List Nat → Option (Nat × List Nat)
  | [] => none
  | b :: rest =>
    if b < 128 then some (b, rest)
    else match varintDecode rest with
      | some (n, r) => some (b - 128 + 128 * n, r)
      | none => none

/-! ### ASCII trimming, UTF-8 validation, header-region splitting -/

/-- Rust `u8::is_ascii_whitespace`: space, tab, LF, FF, CR. -/

def isAsciiWhitespace (b : Nat) : Bool :=
  b = 32 || b = 9 || b = 10 || b = 12 || b = 13

/-- Rust `[u8]::trim_ascii`: strip leading and trailing ASCII whitespace. -/

def trimAscii (l : List Nat) : List Nat :=
  ((l.dropWhile isAsciiWhitespace).reverse.dropWhile isAsciiWhitespace).reverse

/-- Helper: a UTF-8 continuation byte. -/

def isUtf8Cont (b : Nat) : Bool := 128 ≤ b && b ≤ 191

/-- Continuation-byte count demanded by a non-ASCII UTF-8 lead byte
(zero for an invalid lead byte). -/

def utf8LeadCount (b : Nat) : Nat :=
  if 194 ≤ b ∧ b ≤ 223 then 1
  else if 224 ≤ b ∧ b ≤ 239 then 2
  else if 240 ≤ b ∧ b ≤ 244 then 3
  else 0

/-- Allowed range of the first continuation byte, given the lead byte. -/

def utf8FirstContOk (b b1 : Nat) : Bool :=
  if b = 224 then 160 ≤ b1 && b1 ≤ 191
  else if b = 237 then 128 ≤ b1 && b1 ≤ 159
  else if b = 240 then 144 ≤ b1 && b1 ≤ 191
  else if b = 244 then 128 ≤ b1 && b1 ≤ 143
  else isUtf8Cont b1

/-- Validity of a byte list as UTF-8, following the standard well-formedness
table (as checked by Rust `str::from_utf8`): a lead byte demanding `k`
continuation bytes must be followed by `k` bytes, the first in the range
determined by the lead byte and the others in `128..=191`. -/

def isValidUtf8 : List Nat → Bool
  | [] => true
  | b :: rest =>
    if b ≤ 127 then isValidUtf8 rest
    else
      if utf8LeadCount b = 0 then false
      else if rest.length < utf8LeadCount b then false
      else
        utf8FirstContOk b (rest.headD 0) &&
        ((rest.take (utf8LeadCount b)).drop 1).all isUtf8Cont &&
        isValidUtf8 (rest.drop (utf8LeadCount b))
termination_by l => l.length
decreasing_by all_goals (simp only [List.length_cons, List.length_drop]; omega)

/-- Splitting a byte list at every CR or LF byte; delimiters are dropped and
empty segments are kept (Rust `slice::split`). -/

def splitNL : List Nat → List (List Nat)
  | [] => [[]]
  | b :: rest =>
    if b = 13 ∨ b = 10 then [] :: splitNL rest
    else
      match splitNL rest with
      | s :: ss => (b :: s) :: ss
      | [] => [[b]]

/-! ### CRC-32/ISO-HDLC

Concrete bit-level implementation of the checksum computed by the
`crc_fast` crate with `CrcAlgorithm::Crc32IsoHdlc` (reflected polynomial
`0xEDB88320`, initial value and final xor `0xFFFFFFFF`). -/

/-- One bit step of the reflected CRC-32 computation. -/

def crc32Bit (c : Nat) : Nat :=
  if c % 2 = 1 then (c / 2) ^^^ 0xEDB88320 else c / 2

/-- One byte step of the reflected CRC-32 computation. -/

def crc32Byte (c b : Nat) : Nat := crc32Bit^[8] (c ^^^ b % 256)

/-- CRC-32/ISO-HDLC of a byte list. -/

def crc32 (l : List Nat) : Nat := (l.foldl crc32Byte 0xFFFFFFFF) ^^^ 0xFFFFFFFF

/-! ### Search for the double-CRLF header terminator

Models `buffer.windows(4).position(|w| w == b"\r\n\r\n")` from
`read_next_payload` (`connection.rs`): the index of the first window of
four bytes equal to CR LF CR LF. -/

/-- First position (starting at offset `i`) of a `[13, 10, 13, 10]` window. -/

def findDelimAux : List Nat → Nat → Option Nat
  | [], _ => none
  | b :: rest, i =>
    if (b :: rest).take 4 = [13, 10, 13, 10] then some i
    else findDelimAux rest (i + 1)

/-! ### Message schema (`transport.rs`)

The field types mirror the Rust structs: byte strings (`&[u8]`, `String`,
`&str` as UTF-8 bytes) are `List Nat`, fixed 32-byte arrays are
`List Nat` together with a length side condition, integers are `Nat`. -/

/-- Handshake message payload (`HandshakeV1`). -/

structure HandshakeV1 where
  file_hash : List Nat
  total_size : Nat
  concurrency : Nat
  file_name : List Nat
  block_size : Nat
deriving DecidableEq, Repr

/-- Data chunk message payload (`DataV1`). -/

structure DataV1 where
  seq : Nat
  checksum : Nat
  file_hash : List Nat
  compressed : Bool
  data : List Nat
deriving DecidableEq, Repr

/-- Sender error payload (`SenderErrorV1`). -/

structure SenderErrorV1 where
  code : Nat
  message : List Nat
deriving DecidableEq, Repr

/-- Verify response payload (`VerifyResponseV1`); `file_hash` is `[u8; 32]`. -/

structure VerifyResponseV1 where
  file_hash : List Nat
  seq : Nat
  valid : Bool
deriving DecidableEq, Repr

/-- Block request payload (`RequestV1`); `file_hash` is `[u8; 32]`. -/

structure RequestV1 where
  file_hash : List Nat
  seq : Nat
deriving DecidableEq, Repr

/-- Progress payload (`ProgressV1`); `file_hash` is `[u8; 32]`. -/

structure ProgressV1 where
  file_hash : List Nat
  bytes_received : Nat
deriving DecidableEq, Repr

/-- Transfer-complete payload (`TransferCompleteV1`); `file_hash` is `[u8; 32]`. -/

structure TransferCompleteV1 where
  file_hash : List Nat
deriving DecidableEq, Repr

/-- Receiver error payload (`ReceiverErrorV1`). -/

structure ReceiverErrorV1 where
  code : Nat
  message : List Nat
deriving DecidableEq, Repr

/-- Verify-block request payload (`VerifyBlockV1`); `file_hash` is `[u8; 32]`. -/

structure VerifyBlockV1 where
  file_hash : List Nat
  seq : Nat
  checksum : Nat
deriving DecidableEq, Repr

/-- Messages sent from the Sender to the Receiver (`SenderMessageV1`). -/

inductive SenderMessageV1 where
  | Handshake (h : HandshakeV1)
  | Data (d : DataV1)
  | Error (e : SenderErrorV1)
  | VerifyResponse (v : VerifyResponseV1)
deriving DecidableEq, Repr

/-- Messages sent from the Receiver to the Sender (`ReceiverMessageV1`). -/

inductive ReceiverMessageV1 where
  | Request (r : RequestV1)
  | Progress (p : ProgressV1)
  | TransferComplete (t : TransferCompleteV1)
  | Error (e : ReceiverErrorV1)
  | VerifyBlock (v : VerifyBlockV1)
deriving DecidableEq, Repr

/-! ### Postcard wire format

Modelled from the spec: the payload codec is the external `postcard`
crate, specified by §4.1 as "a compact self-describing binary encoding
that round-trips every field" ("the reference uses a varint-based
encoding").  The definitions below reproduce postcard's documented wire
format: integers as unsigned LEB128 varints, `bool` as one byte, byte
slices and strings as a varint length followed by the raw bytes, fixed
arrays as the raw bytes with no length, enums as a varint discriminant
followed by the variant's fields in declaration order. -/

/-- Postcard encoding of a `bool` (one byte). -/

def encodeBool (b : Bool) : List Nat := [if b then 1 else 0]

/-- Postcard encoding of a length-prefixed byte sequence (`&[u8]`, `&str`). -/

def encodeBytes (l : List Nat) : List Nat := varintEncode l.length ++ l

/-- Postcard decoding of a `bool`. -/

def decodeBool : List Nat → Option (Bool × List Nat)
  | 0 :: r => some (false, r)
  | 1 :: r => some (true, r)
  | _ => none

/-- Postcard decoding of a length-prefixed byte sequence. -/

def decodeBytes (l : List Nat) : Option (List Nat × List Nat) :=
  match varintDecode l with
  | some (n, rest) => if n ≤ rest.length then some (rest.take n, rest.drop n) else none
  | none => none

/-- Postcard decoding of a fixed 32-byte array. -/

def decodeFixed32 (l : List Nat) : Option (List Nat × List Nat) :=
  if 32 ≤ l.length then some (l.take 32, l.drop 32) else none

/-- Postcard encoding of a Sender→Receiver message. -/

def encodeSenderMsg : SenderMessageV1 → List Nat
  | .Handshake h =>
    varintEncode 0 ++ encodeBytes h.file_hash ++ varintEncode h.total_size ++
      varintEncode h.concurrency ++ encodeBytes h.file_name ++ varintEncode h.block_size
  | .Data d =>
    varintEncode 1 ++ varintEncode d.seq ++ varintEncode d.checksum ++
      encodeBytes d.file_hash ++ encodeBool d.compressed ++ encodeBytes d.data
  | .Error e => varintEncode 2 ++ varintEncode e.code ++ encodeBytes e.message
  | .VerifyResponse v =>
    varintEncode 3 ++ v.file_hash ++ varintEncode v.seq ++ encodeBool v.valid

/-- Postcard decoding of a Sender→Receiver message. -/

def decodeSenderMsg (l : List Nat) : Option (SenderMessageV1 × List Nat) := do
  let (tag, r) ← varintDecode l
  match tag with
  | 0 =>
    let (file_hash, r) ← decodeBytes r
    let (total_size, r) ← varintDecode r
    let (concurrency, r) ← varintDecode r
    let (file_name, r) ← decodeBytes r
    let (block_size, r) ← varintDecode r
    pure (.Handshake ⟨file_hash, total_size, concurrency, file_name, block_size⟩, r)
  | 1 =>
    let (seq, r) ← varintDecode r
    let (checksum, r) ← varintDecode r
    let (file_hash, r) ← decodeBytes r
    let (compressed, r) ← decodeBool r
    let (data, r) ← decodeBytes r
    pure (.Data ⟨seq, checksum, file_hash, compressed, data⟩, r)
  | 2 =>
    let (code, r) ← varintDecode r
    let (message, r) ← decodeBytes r
    pure (.Error ⟨code, message⟩, r)
  | 3 =>
    let (file_hash, r) ← decodeFixed32 r
    let (seq, r) ← varintDecode r
    let (valid, r) ← decodeBool r
    pure (.VerifyResponse ⟨file_hash, seq, valid⟩, r)
  | _ => none

/-- Postcard encoding of a Receiver→Sender message. -/

def encodeReceiverMsg : ReceiverMessageV1 → List Nat
  | .Request r => varintEncode 0 ++ r.file_hash ++ varintEncode r.seq
  | .Progress p => varintEncode 1 ++ p.file_hash ++ varintEncode p.bytes_received
  | .TransferComplete t => varintEncode 2 ++ t.file_hash
  | .Error e => varintEncode 3 ++ varintEncode e.code ++ encodeBytes e.message
  | .VerifyBlock v =>
    varintEncode 4 ++ v.file_hash ++ varintEncode v.seq ++ varintEncode v.checksum

/-- Postcard decoding of a Receiver→Sender message. -/

def decodeReceiverMsg (l : List Nat) : Option (ReceiverMessageV1 × List Nat) := do
  let (tag, r) ← varintDecode l
  match tag with
  | 0 =>
    let (file_hash, r) ← decodeFixed32 r
    let (seq, r) ← varintDecode r
    pure (.Request ⟨file_hash, seq⟩, r)
  | 1 =>
    let (file_hash, r) ← decodeFixed32 r
    let (bytes_received, r) ← varintDecode r
    pure (.Progress ⟨file_hash, bytes_received⟩, r)
  | 2 =>
    let (file_hash, r) ← decodeFixed32 r
    pure (.TransferComplete ⟨file_hash⟩, r)
  | 3 =>
    let (code, r) ← varintDecode r
    let (message, r) ← decodeBytes r
    pure (.Error ⟨code, message⟩, r)
  | 4 =>
    let (file_hash, r) ← decodeFixed32 r
    let (seq, r) ← varintDecode r
    let (checksum, r) ← varintDecode r
    pure (.VerifyBlock ⟨file_hash, seq, checksum⟩, r)
  | _ => none

/-- Well-formedness of a Sender→Receiver message: fixed-array hash fields
hold exactly 32 bytes (they are `[u8; 32]` in the Rust schema). -/

def SenderMessageV1.wf : SenderMessageV1 → Prop
  | .VerifyResponse v => v.file_hash.length = 32
  | _ => True

/-- Well-formedness of a Receiver→Sender message: fixed-array hash fields
hold exactly 32 bytes (they are `[u8; 32]` in the Rust schema). -/

def ReceiverMessageV1.wf : ReceiverMessageV1 → Prop
  | .Request r => r.file_hash.length = 32
  | .Progress p => p.file_hash.length = 32
  | .TransferComplete t => t.file_hash.length = 32
  | .Error _ => True
  | .VerifyBlock v => v.file_hash.length = 32

/-! ### Frame writer (`transport.rs::attach_headers`) -/

/-- Compose the frame `"Ver: 1\r\n" "Len: <n>\r\n" "\r\n" <payload>`
(`attach_headers` in `transport.rs`). -/

def attach_headers (payload : List Nat) : List Nat :=
  versionHeaderBytes ++ decBytes CURRENT_PROTOCOL_VERSION ++ MESSAGE_DELIMITER ++
    lengthHeaderBytes ++ decBytes payload.length ++ MESSAGE_DELIMITER ++
    MESSAGE_DELIMITER ++ payload

/-! ### Frame reader (`connection.rs::read_next_payload`)

The byte stream is modelled as a list of chunks: each call of
`stream.read` hands over the next pending chunk, clipped to the free
space of the destination slice; once the chunks are exhausted the stream
is closed and every read returns zero bytes.  The scratch buffer is a
`List Nat` of fixed length that is overwritten in place.  The two
`loop`/`while` constructs of the Rust function are given explicit fuel;
an exhausted fuel (result `none`) means the Rust loop has not returned
within that many iterations, and `∀ fuel, ... = none` means it never
returns. -/

/-- One `stream.read` on a chunked stream with `space` free bytes available. -/

def streamRead (space : Nat) : List (List Nat) → List Nat × List (List Nat)
  | [] => ([], [])
  | c :: cs =>
    if c.length ≤ space then (c, cs)
    else (c.take space, c.drop space :: cs)

/-- Overwrite `buffer` at position `pos` with `chunk` (fixed-size buffer). -/

def writeAt (buffer : List Nat) (pos : Nat) (chunk : List Nat) : List Nat :=
  buffer.take pos ++ chunk ++ buffer.drop (pos + chunk.length)

/-- Errors of `StreamReadError` (`connection.rs`); the `details` strings and
the wrapped io/postcard errors are dropped. -/

inductive StreamReadError where
  | Io
  | UnexpectedEof
  | BufferSmallerThanExpected (min_expected : Nat)
  | InvalidMessageFormat
  | UnsupportedProtocolVersion (found expected : Nat)
  | PayloadParseError
deriving DecidableEq, Repr

/-- Outcome of parsing the header region; `panicked` models the Rust panic
raised by an out-of-bounds index `header_lines[0]` / `header_lines[1]`. -/

inductive HeaderParseOutcome where
  | ok (version length : Nat)
  | err (e : StreamReadError)
  | panicked
deriving DecidableEq, Repr

/-- Maximum of Rust `u8`, the integer type of the version header value. -/

def U8_MAX : Nat := 255

/-- Maximum of Rust `usize` (64-bit), the integer type of the length value. -/

def USIZE_MAX : Nat := 2 ^ 64 - 1

/-- Parse one header line (`connection.rs::parse_header_line`): skip
`prefixLen` bytes (error if the line is shorter), trim ASCII whitespace,
require UTF-8, parse as a decimal integer bounded by the target type. -/

def parse_header_line (line : List Nat) (prefixLen maxVal : Nat) :
    Except StreamReadError Nat :=
  if line.length < prefixLen then .error .InvalidMessageFormat
  else
    let valueBytes := trimAscii (line.drop prefixLen)
    if isValidUtf8 valueBytes then
      match parseDecimal valueBytes with
      | some v => if v ≤ maxVal then .ok v else .error .InvalidMessageFormat
      | none => .error .InvalidMessageFormat
    else .error .InvalidMessageFormat

/-- Parse the header region (`connection.rs::parse_all_headers`): split at
every CR or LF, drop empty lines, trim each line, then read the version
from line 0 and the length from line 1.  Rust indexes `header_lines[0]`
and `header_lines[1]` unconditionally, so fewer than two non-empty lines
end in a panic (after the version parse, for exactly one line). -/

def parse_all_headers (headerBuffer : List Nat) : HeaderParseOutcome :=
  let lines := ((splitNL headerBuffer).filter (fun l => l ≠ [])).map trimAscii
  match lines with
  | [] => .panicked
  | [l0] =>
    match parse_header_line l0 versionHeaderBytes.length U8_MAX with
    | .error e => .err e
    | .ok _ => .panicked
  | l0 :: l1 :: _ =>
    match parse_header_line l0 versionHeaderBytes.length U8_MAX with
    | .error e => .err e
    | .ok v =>
      match parse_header_line l1 lengthHeaderBytes.length USIZE_MAX with
      | .error e => .err e
      | .ok n => .ok v n

/-- Header-reading loop of `read_next_payload`: grow the buffer until the
double CRLF appears; returns the header end index, the buffer, the total
bytes read and the remaining stream. -/

def readHeaderPhase (fuel : Nat) (chunks : List (List Nat)) (buffer : List Nat)
    (total : Nat) :
    Option (Except StreamReadError (Nat × List Nat × Nat × List (List Nat))) :=
  match fuel with
  | 0 => none
  | fuel + 1 =>
    if total = buffer.length then
      some (.error (.BufferSmallerThanExpected MAX_MESSAGE_SIZE))
    else
      match streamRead (buffer.length - total) chunks with
      | (chunk, rest) =>
        if chunk.length = 0 then some (.error .UnexpectedEof)
        else
          let total' := total + chunk.length
          let buffer' := writeAt buffer total chunk
          let testFrom := total - 3
          match findDelimAux ((buffer'.take total').drop testFrom) 0 with
          | some j => some (.ok (j + testFrom, buffer', total', rest))
          | none => readHeaderPhase fuel rest buffer' total'

/-- Payload-reading loop of `read_next_payload`: keep reading until
`expected` bytes are in the buffer.  The Rust loop does not test for a
zero-byte read, so a closed stream makes it spin; that shows up here as
running out of any amount of fuel. -/

def readPayloadPhase (fuel : Nat) (chunks : List (List Nat)) (buffer : List Nat)
    (total expected : Nat) : Option (List Nat × Nat × List (List Nat)) :=
  if expected ≤ total then some (buffer, total, chunks)
  else
    match fuel with
    | 0 => none
    | fuel + 1 =>
      match streamRead (buffer.length - total) chunks with
      | (chunk, rest) =>
        readPayloadPhase fuel rest (writeAt buffer total chunk) (total + chunk.length) expected

/-- Successful result of `read_next_payload` (`ReadPayloadResult`). -/

structure ReadPayloadResult (T : Type) where
  message : T
  total_bytes_read : Nat
  next_payload_index : Option Nat
deriving DecidableEq, Repr

/-- Overall outcome of one `read_next_payload` call. -/

inductive ReadRunResult (T : Type) where
  | ok (r : ReadPayloadResult T)
  | err (e : StreamReadError)
  | panicked
deriving DecidableEq, Repr

/-- The frame reader `read_next_payload` (`connection.rs`), parametrised by
the payload decoder (postcard `from_bytes`).  `buffer0` is the scratch
buffer contents on entry, `filled` the number of bytes of it that already
belong to this message. -/

def read_next_payload {T : Type} (decode : List Nat → Option (T × List Nat))
    (fuel : Nat) (chunks : List (List Nat)) (buffer0 : List Nat) (filled : Nat) :
    Option (ReadRunResult T) :=
  match readHeaderPhase fuel chunks buffer0 filled with
  | none => none
  | some (.error e) => some (.err e)
  | some (.ok (headerEnd, buffer1, total1, chunks1)) =>
    let header := buffer1.take headerEnd
    match parse_all_headers header with
    | .panicked => some .panicked
    | .err e => some (.err e)
    | .ok version length =>
      if version ≠ CURRENT_PROTOCOL_VERSION then
        some (.err (.UnsupportedProtocolVersion version CURRENT_PROTOCOL_VERSION))
      else
        let payloadStart := headerEnd + 2 * MESSAGE_DELIMITER.length
        let expected := payloadStart + length
        if buffer1.length < expected then
          some (.err (.BufferSmallerThanExpected expected))
        else
          match readPayloadPhase fuel chunks1 buffer1 total1 expected with
          | none => none
          | some (buffer2, total2, _) =>
            let payloadBytes := (buffer2.take expected).drop payloadStart
            match decode payloadBytes with
            | none => some (.err .PayloadParseError)
            | some (msg, _) =>
              some (.ok ⟨msg, total2, if expected < total2 then some expected else none⟩)


/-! ### Block I/O (`file/utils.rs`)

The on-disk file is a byte list; `read_file_block` and
`write_file_block` are the positioned block accessors.  Writing past the
end of the file extends it with zero bytes first (OS seek-past-EOF
semantics), matching the Rust positioned write. -/

/-- Read block `seq`: seek to `seq * block_size`, read up to `block_size`
bytes (shorter or empty at end of file). -/
def read_file_block (disk : List Nat) (seq block_size : Nat) : List Nat :=
  (disk.drop (seq * block_size)).take block_size

/-- Write block `seq`: seek to `seq * block_size` and write all of `data`. -/
def write_file_block (disk : List Nat) (seq block_size : Nat) (data : List Nat) : List Nat :=
  let pre := disk.take (seq * block_size)
  pre ++ List.replicate (seq * block_size - pre.length) 0 ++ data ++
    disk.drop (seq * block_size + data.length)

/-! ### Sender connection handler (`stream/send.rs`)

Per-connection mutable state and the `Request` handler.  The gzip
encoder is an oracle `gz : List Nat → Option (List Nat)` (`none` models
an encoder failure); the positioned read result is an oracle too, so the
error branch of the Rust `match read_file_block(...)` is preserved.
Socket writes and payload serialization cannot fail in the pure model;
the returned `Bool` is the `Ok(true)`/`Ok(false)` continue flag. -/

/-- Per-connection handler state (`ConnectionHandler`); the open file handle
and the scratch buffers have no observable pure content. -/
structure ConnectionHandler where
  expected_hash : List Nat
  block_size : Nat
  compression_enabled : Option Bool
deriving DecidableEq, Repr

/-- What the handler sends back for one request. -/
inductive HandlerReply where
  | silent
  | dataMsg (d : DataV1)
  | errorMsg (code : Nat)
deriving DecidableEq, Repr

/-- The `Request` handler (`ConnectionHandler::handle_data_request`). -/
def handle_data_request (gz : List Nat → Option (List Nat)) (h : ConnectionHandler)
    (req : RequestV1) (readResult : Except Unit (List Nat)) :
    ConnectionHandler × HandlerReply × Bool :=
  if req.file_hash ≠ h.expected_hash then (h, .silent, false)
  else
    match readResult with
    | .error _ => (h, .errorMsg 500, false)
    | .ok data =>
      let attemptCompression := match h.compression_enabled with
        | some true => true
        | some false => false
        | none => true
      if attemptCompression then
        match gz data with
        | some comp =>
          let isSmaller := comp.length < data.length
          let h' := if h.compression_enabled = Option.none then
            { h with compression_enabled := some isSmaller } else h
          if isSmaller then
            (h', .dataMsg ⟨req.seq, crc32 comp, h.expected_hash, true, comp⟩, true)
          else
            (h', .dataMsg ⟨req.seq, crc32 data, h.expected_hash, false, data⟩, true)
        | none =>
          let h' := if h.compression_enabled = Option.none then
            { h with compression_enabled := some false } else h
          (h', .dataMsg ⟨req.seq, crc32 data, h.expected_hash, false, data⟩, true)
      else
        (h, .dataMsg ⟨req.seq, crc32 data, h.expected_hash, false, data⟩, true)

/-- Process a list of requests on one connection, threading the handler
state (the `Request` arm of the `handle_connection` loop). -/
def runRequests (gz : List Nat → Option (List Nat)) (h : ConnectionHandler) :
    List (RequestV1 × Except Unit (List Nat)) → ConnectionHandler × List HandlerReply
  | [] => (h, [])
  | (req, rr) :: rest =>
    let step := handle_data_request gz h req rr
    let tail := runRequests gz step.1 rest
    (tail.1, step.2.1 :: tail.2)

/-- Toy gzip oracle: a 4-byte input "compresses" to 1 byte, anything else
"compresses" to 5 bytes.  Gzip output genuinely can be larger than the
input (incompressible data), which is the situation this oracle builds. -/
def gzToy (l : List Nat) : Option (List Nat) :=
  if l.length = 4 then some [7] else some [9, 9, 9, 9, 9]

/-! ### Receiver state and workers (`stream/receive.rs`) -/

/-- Shared receiver state visible to the verified properties:
`received_blocks` flags, output file bytes, `bytes_received` counter. -/
structure RState where
  flags : List Bool
  disk : List Nat
  bytes : Nat
deriving DecidableEq, Repr

/-- Handle one received `Data` message (`process_data_block`): reject on a
checksum mismatch over the transmitted bytes, decompress when flagged
(oracle `gunzip`, `none` = decode failure), then write the block and bump
`bytes_received`. -/
def process_data_block (gunzip : List Nat → Option (List Nat)) (B : Nat)
    (st : RState) (seq : Nat) (d : DataV1) : Bool × RState :=
  if crc32 d.data ≠ d.checksum then (false, st)
  else
    match (if d.compressed then gunzip d.data else some d.data) with
    | none => (false, st)
    | some blockData =>
      (true, { st with
        disk := write_file_block st.disk seq B blockData,
        bytes := st.bytes + blockData.length })

/-- What one request/response exchange on the wire can look like from the
receiver's side. -/
inductive WireEvent where
  | sendFail
  | readFail
  | msg (m : SenderMessageV1)

/-- One download attempt (`download_block_with_retry`): send the request,
read one frame, and dispatch on the message variant. -/
def download_block_with_retry (gunzip : List Nat → Option (List Nat)) (B : Nat)
    (st : RState) (seq : Nat) (ev : WireEvent) : Bool × RState :=
  match ev with
  | .sendFail => (false, st)
  | .readFail => (false, st)
  | .msg (.Data d) => process_data_block gunzip B st seq d
  | .msg _ => (false, st)

/-- The bounded-retry `loop` of `download_missing_blocks`, for one block:
`events` gives the wire outcome of each attempt.  Returns the resulting
state (`none` models the `TimedOut` error return) and the list of sleep
durations (in ms) performed between attempts. -/
def downloadLoop (gunzip : List Nat → Option (List Nat)) (B : Nat) (st : RState)
    (seq : Nat) (events : Nat → WireEvent) (attempt retry_count retry_delay : Nat)
    (sleeps : List Nat) : Option RState × List Nat :=
  let step := download_block_with_retry gunzip B st seq (events attempt)
  if step.1 then (some { step.2 with flags := step.2.flags.set seq true }, sleeps)
  else
    if MAX_RETRIES ≤ retry_count + 1 then (none, sleeps)
    else downloadLoop gunzip B step.2 seq events (attempt + 1) (retry_count + 1)
      (retry_delay * 2) (sleeps ++ [retry_delay * 2])
termination_by MAX_RETRIES - retry_count
decreasing_by simp only [MAX_RETRIES] at *; omega

/-- The download pass (`download_missing_blocks`) over the assigned range:
skip blocks already marked, otherwise run the bounded-retry loop;
a `none` result models the worker failing with the timeout error. -/
def download_missing_blocks (gunzip : List Nat → Option (List Nat)) (B : Nat)
    (events : Nat → Nat → WireEvent) (st : RState) (current range_end : Nat) :
    Option RState :=
  if range_end ≤ current then some st
  else if st.flags.getD current false then
    download_missing_blocks gunzip B events st (current + 1) range_end
  else
    match downloadLoop gunzip B st current (events current) 0 0 INITIAL_RETRY_DELAY_MS [] with
    | (none, _) => none
    | (some st', _) => download_missing_blocks gunzip B events st' (current + 1) range_end
termination_by range_end - current
decreasing_by all_goals omega

/-- Interpret the frame read after a `VerifyBlock` challenge
(`read_verify_response`): accept only a `VerifyResponse` with the right
seq; its `valid` flag is the answer; anything else counts as invalid. -/
def read_verify_response (m : SenderMessageV1) (seq : Nat) : Bool :=
  match m with
  | .VerifyResponse resp => if resp.seq ≠ seq then false else resp.valid
  | .Error _ => false
  | _ => false

/-- The per-block body of the verify-first pass (`verify_existing_blocks`
loop body, for a block that is unmarked and locally non-empty). -/
def verify_block_step (B : Nat) (st : RState) (seq : Nat) (resp : SenderMessageV1) :
    RState :=
  let blockData := read_file_block st.disk seq B
  if read_verify_response resp seq then
    { st with flags := st.flags.set seq true, bytes := st.bytes + blockData.length }
  else st

/-- The verify-first pass (`verify_existing_blocks`) over the assigned
range: skip marked blocks and locally-empty blocks, otherwise challenge
the sender (the response for seq `i` is `oracle i`) and mark on success. -/
def verify_existing_blocks (B : Nat) (oracle : Nat → SenderMessageV1) (st : RState)
    (current range_end : Nat) : RState :=
  if range_end ≤ current then st
  else if st.flags.getD current false then
    verify_existing_blocks B oracle st (current + 1) range_end
  else if (read_file_block st.disk current B).isEmpty then
    verify_existing_blocks B oracle st (current + 1) range_end
  else
    verify_existing_blocks B oracle (verify_block_step B st current (oracle current))
      (current + 1) range_end
termination_by range_end - current
decreasing_by all_goals omega

/-! ### Range partitioning (`stream/receive.rs::split_blocks_into_ranges`) -/

/-- The `for i in 0..concurrency` loop of `split_blocks_into_ranges`,
with `countdown` iterations left. -/
def splitRangesAux (blocksPerConn remainder totalBlocks : Nat) :
    Nat → Nat → Nat → List (Nat × Nat)
  | _, _, 0 => []
  | i, start, countdown + 1 =>
    let extra := if i < remainder then 1 else 0
    let e := min (start + blocksPerConn + extra) totalBlocks
    (start, e) :: splitRangesAux blocksPerConn remainder totalBlocks (i + 1) e countdown

/-- Partition `[0, total_blocks)` into `concurrency` contiguous ranges
(`split_blocks_into_ranges`); a pair `(s, e)` is the Rust range `s..e`. -/
def split_blocks_into_ranges (total_blocks concurrency : Nat) : List (Nat × Nat) :=
  splitRangesAux (total_blocks / concurrency) (total_blocks % concurrency) total_blocks
    0 0 concurrency

/-- Closed form for the start of the `i`-th range produced by
`split_blocks_into_ranges`. -/
def splitRangeStart (total_blocks concurrency i : Nat) : Nat :=
  i * (total_blocks / concurrency) + min i (total_blocks % concurrency)


/-! ## Theorems -/

theorem decBytesAux_eq_append (n : Nat) (acc : List Nat) :
    decBytesAux n acc = decBytes n ++ acc := by
  induction n using Nat.strong_induction_on generalizing acc with
  | _ n ih =>
    by_cases h : n < 10
    · simp [decBytesAux, decBytes, h]
    · rw [decBytesAux, dif_neg h, ih (n / 10) (Nat.div_lt_self (by omega) (by omega))]
      conv_rhs => rw [decBytes, decBytesAux, dif_neg h,
        ih (n / 10) (Nat.div_lt_self (by omega) (by omega))]
      simp

theorem decBytes_ne_nil (n : Nat) : decBytes n ≠ [] := by
  by_cases h : n < 10
  · simp [decBytes, decBytesAux, h]
  · rw [decBytes, decBytesAux, dif_neg h, decBytesAux_eq_append]
    simp

theorem decBytes_digits (n : Nat) : ∀ b ∈ decBytes n, 48 ≤ b ∧ b ≤ 57 := by
  induction n using Nat.strong_induction_on with
  | _ n ih =>
    by_cases h : n < 10
    · intro b hb
      simp [decBytes, decBytesAux, h] at hb
      omega
    · intro b hb
      rw [decBytes, decBytesAux, dif_neg h, decBytesAux_eq_append] at hb
      rcases List.mem_append.mp hb with h1 | h2
      · exact ih (n / 10) (Nat.div_lt_self (by omega) (by omega)) b h1
      · have : b = 48 + n % 10 := by simpa using h2
        have := Nat.mod_lt n (show 0 < 10 by omega)
        omega

theorem decBytes_length_of_ge (n : Nat) (h : ¬ n < 10) :
    (decBytes n).length = (decBytes (n / 10)).length + 1 := by
  conv_lhs => rw [decBytes, decBytesAux, dif_neg h, decBytesAux_eq_append]
  simp

theorem foldl_decStep_decBytes (n a : Nat) :
    (decBytes n).foldl decStep a = a * 10 ^ (decBytes n).length + n := by
  induction n using Nat.strong_induction_on generalizing a with
  | _ n ih =>
    by_cases h : n < 10
    · rw [decBytes, decBytesAux, dif_pos h]
      simp only [List.foldl_cons, List.foldl_nil, List.length_cons, List.length_nil, decStep,
        pow_one, Nat.zero_add]
      omega
    · rw [decBytes_length_of_ge n h]
      conv_lhs => rw [decBytes, decBytesAux, dif_neg h, decBytesAux_eq_append]
      rw [List.foldl_append, ih (n / 10) (Nat.div_lt_self (by omega) (by omega))]
      simp only [List.foldl_cons, List.foldl_nil]
      unfold decStep
      have h2 : 10 * (n / 10) + n % 10 = n := Nat.div_add_mod n 10
      have h3 : 48 + n % 10 - 48 = n % 10 := by omega
      rw [h3, pow_succ]
      calc (a * 10 ^ (decBytes (n / 10)).length + n / 10) * 10 + n % 10
          = a * (10 ^ (decBytes (n / 10)).length * 10) + (10 * (n / 10) + n % 10) := by ring
        _ = a * (10 ^ (decBytes (n / 10)).length * 10) + n := by rw [h2]

theorem parseDecimal_decBytes (n : Nat) : parseDecimal (decBytes n) = some n := by
  obtain ⟨b, bs, hb⟩ : ∃ b bs, decBytes n = b :: bs := by
    cases h : decBytes n with
    | nil => exact absurd h (decBytes_ne_nil n)
    | cons b bs => exact ⟨b, bs, rfl⟩
  have hdig := decBytes_digits n
  have hb48 : 48 ≤ b ∧ b ≤ 57 := hdig b (by rw [hb]; exact List.mem_cons_self b bs)
  unfold parseDecimal
  rw [hb]
  have hmatch : (match b :: bs with
      | 43 :: rest => rest
      | _ => b :: bs) = b :: bs := by
    match b, hb48 with
    | b + 48, _ => rfl
  simp only [hmatch]
  rw [if_neg (by simp)]
  rw [if_pos]
  · rw [← hb]
    have := foldl_decStep_decBytes n 0
    simp at this
    simp [this]
  · rw [← hb]
    simp only [List.all_eq_true]
    intro x hx
    have := hdig x hx
    simp
    omega

theorem varintDecode_encode (n : Nat) (rest : List Nat) :
    varintDecode (varintEncode n ++ rest) = some (n, rest) := by
  induction n using Nat.strong_induction_on generalizing rest with
  | _ n ih =>
    by_cases h : n < 128
    · rw [varintEncode, dif_pos h, List.cons_append, List.nil_append, varintDecode, if_pos h]
    · rw [varintEncode, dif_neg h, List.cons_append, varintDecode]
      rw [if_neg (by omega)]
      rw [ih (n / 128) (Nat.div_lt_self (by omega) (by omega))]
      have h1 : n % 128 + 128 - 128 = n % 128 := by omega
      rw [h1]
      show some (n % 128 + 128 * (n / 128), rest) = some (n, rest)
      rw [Nat.mod_add_div n 128]

theorem isValidUtf8_of_ascii (l : List Nat) (h : ∀ b ∈ l, b ≤ 127) :
    isValidUtf8 l = true := by
  induction l with
  | nil => rw [isValidUtf8]
  | cons b rest ih =>
    rw [isValidUtf8, if_pos (h b (List.mem_cons_self b rest))]
    exact ih (fun x hx => h x (List.mem_cons_of_mem b hx))

theorem splitNL_ne_nil (l : List Nat) : splitNL l ≠ [] := by
  cases l with
  | nil => simp [splitNL]
  | cons b rest =>
    rw [splitNL]
    by_cases h : b = 13 ∨ b = 10
    · simp [h]
    · rw [if_neg h]
      cases splitNL rest <;> simp

theorem splitNL_cons_of_not_delim (b : Nat) (l : List Nat) (h : ¬ (b = 13 ∨ b = 10)) :
    ∃ s ss, splitNL l = s :: ss ∧ splitNL (b :: l) = (b :: s) :: ss := by
  cases hs : splitNL l with
  | nil => exact absurd hs (splitNL_ne_nil l)
  | cons s ss =>
    refine ⟨s, ss, rfl, ?_⟩
    rw [splitNL, if_neg h, hs]

theorem findDelimAux_append (x y : List Nat) (i : Nat)
    (h : ∀ j, j < x.length → ((x ++ [13, 10, 13, 10] ++ y).drop j).take 4 ≠ [13, 10, 13, 10]) :
    findDelimAux (x ++ [13, 10, 13, 10] ++ y) i = some (i + x.length) := by
  induction x generalizing i with
  | nil => simp [findDelimAux]
  | cons b rest ih =>
    have hshape : (b :: rest) ++ [13, 10, 13, 10] ++ y = b :: (rest ++ [13, 10, 13, 10] ++ y) := rfl
    rw [hshape, findDelimAux]
    have hhd := h 0 (by simp)
    rw [List.drop_zero, hshape] at hhd
    rw [if_neg hhd]
    rw [ih (i + 1) (fun j hj => by
      have hh := h (j + 1) (by simp only [List.length_cons]; omega)
      rw [hshape, List.drop_succ_cons] at hh
      exact hh)]
    congr 1
    simp only [List.length_cons]
    omega

/-- A matching window forces CR bytes at its first and third position. -/

theorem take4_eq_delim_get (l : List Nat) (j : Nat)
    (h : (l.drop j).take 4 = [13, 10, 13, 10]) :
    l[j]? = some 13 ∧ l[j + 2]? = some 13 := by
  have hsplit : l.drop j = 13 :: 10 :: 13 :: 10 :: List.drop 4 (l.drop j) := by
    conv_lhs => rw [← List.take_append_drop 4 (l.drop j), h]
    rfl
  have h0 : (l.drop j)[0]? = some 13 := by rw [hsplit]; rfl
  have h2 : (l.drop j)[2]? = some 13 := by rw [hsplit]; rfl
  rw [List.getElem?_drop] at h0 h2
  constructor
  · simpa using h0
  · exact h2

theorem decodeBool_encode (b : Bool) (rest : List Nat) :
    decodeBool (encodeBool b ++ rest) = some (b, rest) := by
  cases b <;> rfl

theorem decodeBytes_encode (l rest : List Nat) :
    decodeBytes (encodeBytes l ++ rest) = some (l, rest) := by
  unfold decodeBytes encodeBytes
  rw [List.append_assoc, varintDecode_encode]
  show (if l.length ≤ (l ++ rest).length then
      some ((l ++ rest).take l.length, (l ++ rest).drop l.length) else none) = some (l, rest)
  rw [if_pos (by simp)]
  rw [List.take_left' rfl, List.drop_left' rfl]

theorem decodeFixed32_encode (l rest : List Nat) (h : l.length = 32) :
    decodeFixed32 (l ++ rest) = some (l, rest) := by
  unfold decodeFixed32
  rw [if_pos (by simp [h])]
  rw [List.take_left' h, List.drop_left' h]

theorem decodeSenderMsg_encode (m : SenderMessageV1) (rest : List Nat) (h : m.wf) :
    decodeSenderMsg (encodeSenderMsg m ++ rest) = some (m, rest) := by
  cases m with
  | Handshake x =>
    simp only [encodeSenderMsg, decodeSenderMsg, List.append_assoc, varintDecode_encode,
      decodeBytes_encode, Option.bind_eq_bind, Option.some_bind]
    rfl
  | Data x =>
    simp only [encodeSenderMsg, decodeSenderMsg, List.append_assoc, varintDecode_encode,
      decodeBytes_encode, decodeBool_encode, Option.bind_eq_bind, Option.some_bind]
    rfl
  | Error x =>
    simp only [encodeSenderMsg, decodeSenderMsg, List.append_assoc, varintDecode_encode,
      decodeBytes_encode, Option.bind_eq_bind, Option.some_bind]
    rfl
  | VerifyResponse x =>
    simp only [SenderMessageV1.wf] at h
    simp only [encodeSenderMsg, decodeSenderMsg, List.append_assoc, varintDecode_encode,
      decodeFixed32_encode x.file_hash _ h, decodeBool_encode, Option.bind_eq_bind,
      Option.some_bind]
    rfl

theorem decodeReceiverMsg_encode (m : ReceiverMessageV1) (rest : List Nat) (h : m.wf) :
    decodeReceiverMsg (encodeReceiverMsg m ++ rest) = some (m, rest) := by
  cases m with
  | Request x =>
    simp only [ReceiverMessageV1.wf] at h
    simp only [encodeReceiverMsg, decodeReceiverMsg, List.append_assoc, varintDecode_encode,
      decodeFixed32_encode x.file_hash _ h, Option.bind_eq_bind, Option.some_bind]
    rfl
  | Progress x =>
    simp only [ReceiverMessageV1.wf] at h
    simp only [encodeReceiverMsg, decodeReceiverMsg, List.append_assoc, varintDecode_encode,
      decodeFixed32_encode x.file_hash _ h, Option.bind_eq_bind, Option.some_bind]
    rfl
  | TransferComplete x =>
    simp only [ReceiverMessageV1.wf] at h
    simp only [encodeReceiverMsg, decodeReceiverMsg, List.append_assoc, varintDecode_encode,
      decodeFixed32_encode x.file_hash _ h, Option.bind_eq_bind, Option.some_bind]
    rfl
  | Error x =>
    simp only [encodeReceiverMsg, decodeReceiverMsg, List.append_assoc, varintDecode_encode,
      decodeBytes_encode, Option.bind_eq_bind, Option.some_bind]
    rfl
  | VerifyBlock x =>
    simp only [ReceiverMessageV1.wf] at h
    simp only [encodeReceiverMsg, decodeReceiverMsg, List.append_assoc, varintDecode_encode,
      decodeFixed32_encode x.file_hash _ h, Option.bind_eq_bind, Option.some_bind]
    rfl

/-! ### Partition correctness (claim C5) -/

theorem splitRangeStart_zero (t N : Nat) : splitRangeStart t N 0 = 0 := by
  simp [splitRangeStart]

theorem splitRangeStart_total (t N : Nat) (hN : 1 ≤ N) : splitRangeStart t N N = t := by
  unfold splitRangeStart
  have htot : N * (t / N) + t % N = t := Nat.div_add_mod t N
  have hrem : t % N < N := Nat.mod_lt t (by omega)
  have : min N (t % N) = t % N := by omega
  rw [this]
  omega

theorem splitRangeStart_step (t N i : Nat) (hN : 1 ≤ N) (hi : i < N) :
    min (splitRangeStart t N i + t / N + (if i < t % N then 1 else 0)) t
      = splitRangeStart t N (i + 1) := by
  obtain ⟨q, r, htot, hrem, hq, hr⟩ :
      ∃ q r, N * q + r = t ∧ r < N ∧ t / N = q ∧ t % N = r :=
    ⟨t / N, t % N, Nat.div_add_mod t N, Nat.mod_lt t (by omega), rfl, rfl⟩
  unfold splitRangeStart
  rw [hq, hr]
  have hmul : (i + 1) * q = i * q + q := by ring
  by_cases hir : i < r
  · rw [if_pos hir, hmul]
    have hiq : i * q + q ≤ N * q := by
      have : i + 1 ≤ N := hi
      calc i * q + q = (i + 1) * q := by ring
        _ ≤ N * q := Nat.mul_le_mul_right q this
    omega
  · rw [if_neg hir, hmul]
    have hiq : i * q + q ≤ N * q := by
      have : i + 1 ≤ N := hi
      calc i * q + q = (i + 1) * q := by ring
        _ ≤ N * q := Nat.mul_le_mul_right q this
    omega

theorem splitRangeStart_mono (t N : Nat) : Monotone (splitRangeStart t N) := by
  apply monotone_nat_of_le_succ
  intro i
  unfold splitRangeStart
  generalize t / N = q
  generalize t % N = r
  have hmul : (i + 1) * q = i * q + q := by ring
  rw [hmul]
  omega

theorem splitRangesAux_eq_map (t N : Nat) (hN : 1 ≤ N) :
    ∀ countdown i, i + countdown = N →
      splitRangesAux (t / N) (t % N) t i (splitRangeStart t N i) countdown
        = (List.range countdown).map
            (fun k => (splitRangeStart t N (i + k), splitRangeStart t N (i + k + 1))) := by
  intro countdown
  induction countdown with
  | zero => intro i _; simp [splitRangesAux]
  | succ c ih =>
    intro i hi
    rw [splitRangesAux]
    have hstep := splitRangeStart_step t N i hN (by omega)
    simp only at hstep ⊢
    rw [hstep, ih (i + 1) (by omega)]
    rw [List.range_succ_eq_map, List.map_cons, List.map_map]
    refine congrArg₂ _ (by simp) ?_
    apply List.map_congr_left
    intro k _
    simp only [Function.comp_apply]
    have h1 : i + 1 + k = i + k.succ := by omega
    rw [h1]

theorem split_blocks_eq_map (t N : Nat) (hN : 1 ≤ N) :
    split_blocks_into_ranges t N
      = (List.range N).map
          (fun k => (splitRangeStart t N k, splitRangeStart t N (k + 1))) := by
  unfold split_blocks_into_ranges
  have h := splitRangesAux_eq_map t N hN N 0 (by omega)
  rw [splitRangeStart_zero t N] at h
  rw [h]
  simp

theorem exists_interval_of_seq (S : Nat → Nat) :
    ∀ N b, S 0 ≤ b → b < S N → ∃ i, i < N ∧ S i ≤ b ∧ b < S (i + 1) := by
  intro N
  induction N with
  | zero => intro b h0 hN; omega
  | succ n ih =>
    intro b h0 hN
    by_cases hn : S n ≤ b
    · exact ⟨n, by omega, hn, hN⟩
    · obtain ⟨i, hi, h1, h2⟩ := ih b h0 (by omega)
      exact ⟨i, by omega, h1, h2⟩

/-- Claim C5: for every `total_blocks ≥ 0` and concurrency `N ≥ 1`,
`split_blocks_into_ranges` returns exactly `N` contiguous ranges (the
`i`-th being `[S i, S (i+1))` for the closed-form start `S`), starting at
`0` and ending at `total_blocks`; the first `total_blocks % N` ranges
have length `⌈total_blocks / N⌉` and the remaining ones have length
`⌊total_blocks / N⌋`; every block index below `total_blocks` lies in
exactly one range and the ranges stay inside `[0, total_blocks)`. -/
theorem split_blocks_into_ranges_partition (t N : Nat) (hN : 1 ≤ N) :
    (split_blocks_into_ranges t N).length = N ∧
    (∀ i, i < N → (split_blocks_into_ranges t N)[i]? =
      some (splitRangeStart t N i, splitRangeStart t N (i + 1))) ∧
    splitRangeStart t N 0 = 0 ∧ splitRangeStart t N N = t ∧
    (∀ i, i < N → i < t % N →
      splitRangeStart t N (i + 1) - splitRangeStart t N i = (t + N - 1) / N) ∧
    (∀ i, i < N → t % N ≤ i →
      splitRangeStart t N (i + 1) - splitRangeStart t N i = t / N) ∧
    (∀ b, b < t → ∃! i, i < N ∧ splitRangeStart t N i ≤ b ∧ b < splitRangeStart t N (i + 1)) ∧
    (∀ b i, i < N → splitRangeStart t N i ≤ b → b < splitRangeStart t N (i + 1) → b < t) := by
  have hmap := split_blocks_eq_map t N hN
  obtain ⟨q, r, htot, hrem, hq, hr⟩ :
      ∃ q r, N * q + r = t ∧ r < N ∧ t / N = q ∧ t % N = r :=
    ⟨t / N, t % N, Nat.div_add_mod t N, Nat.mod_lt t (by omega), rfl, rfl⟩
  have hlen_at : ∀ i, i < N →
      splitRangeStart t N (i + 1) = splitRangeStart t N i + q + (if i < r then 1 else 0) := by
    intro i hi
    have := splitRangeStart_step t N i hN hi
    rw [hq, hr] at this
    rw [← this]
    unfold splitRangeStart
    rw [hq, hr]
    have hmul : (i + 1) * q = i * q + q := by ring
    have hiq : i * q + q ≤ N * q := by
      calc i * q + q = (i + 1) * q := by ring
        _ ≤ N * q := Nat.mul_le_mul_right q hi
    by_cases hir : i < r
    · rw [if_pos hir]; omega
    · rw [if_neg hir]; omega
  refine ⟨?_, ?_, splitRangeStart_zero t N, splitRangeStart_total t N hN, ?_, ?_, ?_, ?_⟩
  · rw [hmap]; simp
  · intro i hi
    rw [hmap]
    simp [List.getElem?_map, List.getElem?_range, hi]
  · intro i hi hir
    rw [hr] at hir
    have hceil : (t + N - 1) / N = q + 1 := by
      have hNq : N * (q + 1) = N * q + N := by ring
      have ht : t + N - 1 = N * (q + 1) + (r - 1) := by omega
      rw [ht, Nat.mul_add_div (by omega), Nat.div_eq_of_lt (by omega)]
    rw [hceil, hlen_at i hi, if_pos hir]
    omega
  · intro i hi hir
    rw [hr] at hir
    rw [hq, hlen_at i hi, if_neg (by omega)]
    omega
  · intro b hb
    obtain ⟨i, hi, h1, h2⟩ := exists_interval_of_seq (splitRangeStart t N) N b
      (by rw [splitRangeStart_zero]; omega)
      (by rw [splitRangeStart_total t N hN]; omega)
    refine ⟨i, ⟨hi, h1, h2⟩, ?_⟩
    intro j ⟨hj, hj1, hj2⟩
    by_contra hne
    rcases Nat.lt_or_ge j i with hlt | hge
    · have : splitRangeStart t N (j + 1) ≤ splitRangeStart t N i :=
        splitRangeStart_mono t N (by omega)
      omega
    · have hji : i < j := by omega
      have : splitRangeStart t N (i + 1) ≤ splitRangeStart t N j :=
        splitRangeStart_mono t N (by omega)
      omega
  · intro b i hi h1 h2
    have : splitRangeStart t N (i + 1) ≤ splitRangeStart t N N :=
      splitRangeStart_mono t N (by omega)
    rw [splitRangeStart_total t N hN] at this
    omega

/-- Witness for C5 at `total_blocks = 10`, `N = 4`. -/
theorem split_blocks_into_ranges_partition_witness :
    (split_blocks_into_ranges 10 4).length = 4 :=
  (split_blocks_into_ranges_partition 10 4 (by norm_num)).1

/-! ### Sender compression behavior (claims C2, C3, C10) -/

theorem handle_data_request_ok_eval (gz : List Nat → Option (List Nat))
    (h : ConnectionHandler) (req : RequestV1) (data : List Nat) (b : Bool)
    (hhash : req.file_hash = h.expected_hash) (hdec : h.compression_enabled = some b) :
    handle_data_request gz h req (.ok data) =
      if b then
        match gz data with
        | some comp =>
          if comp.length < data.length then
            (h, .dataMsg ⟨req.seq, crc32 comp, h.expected_hash, true, comp⟩, true)
          else
            (h, .dataMsg ⟨req.seq, crc32 data, h.expected_hash, false, data⟩, true)
        | none => (h, .dataMsg ⟨req.seq, crc32 data, h.expected_hash, false, data⟩, true)
      else (h, .dataMsg ⟨req.seq, crc32 data, h.expected_hash, false, data⟩, true) := by
  unfold handle_data_request
  rw [if_neg (by simp [hhash])]
  cases b with
  | false => simp [hdec]
  | true =>
    simp only [hdec]
    cases hgz : gz data with
    | none => simp [hdec]
    | some comp =>
      by_cases hsm : comp.length < data.length
      · simp [hdec, hsm]
      · simp [hdec, hsm]

/-- Claim C2 counterexample: on one connection, after the first request
fixed the sticky decision to "on" (first block compressed smaller), a
second block that compresses larger is sent with `compressed = false`,
so the two Data messages on the connection carry different `compressed`
flags. -/
theorem sticky_compression_counterexample :
    ((runRequests gzToy ⟨List.replicate 32 0, 4, Option.none⟩
        [(⟨List.replicate 32 0, 0⟩, Except.ok [0, 0, 0, 0]),
         (⟨List.replicate 32 0, 0⟩, Except.ok [5])]).2.map
      (fun r => match r with | .dataMsg d => some d.compressed | _ => none))
      = [some true, some false] := by
  decide

/-- Claim C2 as amended: the sticky per-connection decision controls
whether compression is *attempted*, not the flag itself.  Once the
decision is made (`compression_enabled = some b`), it never changes, and
every later Data message carries `compressed = false` when the decision
is off, while under an "on" decision the flag is true exactly when that
block's gzip output exists and is strictly smaller than the raw block. -/
theorem handle_data_request_decision_sticky (gz : List Nat → Option (List Nat))
    (h : ConnectionHandler) (req : RequestV1) (rr : Except Unit (List Nat)) (b : Bool)
    (hdec : h.compression_enabled = some b) (hhash : req.file_hash = h.expected_hash) :
    (handle_data_request gz h req rr).1.compression_enabled = some b ∧
    ∀ data, rr = Except.ok data →
      ∃ d, (handle_data_request gz h req rr).2.1 = HandlerReply.dataMsg d ∧
        d.compressed = (b && match gz data with
          | some c => decide (c.length < data.length)
          | Option.none => false) := by
  cases rr with
  | error u =>
    constructor
    · unfold handle_data_request
      rw [if_neg (by simp [hhash])]
      exact hdec
    · intro data hcontra
      cases hcontra
  | ok data0 =>
    rw [handle_data_request_ok_eval gz h req data0 b hhash hdec]
    cases b with
    | false =>
      rw [if_neg (by simp)]
      refine ⟨hdec, ?_⟩
      intro data hdata
      injection hdata with hdata
      subst hdata
      exact ⟨_, rfl, by simp⟩
    | true =>
      rw [if_pos rfl]
      cases hgz : gz data0 with
      | none =>
        refine ⟨hdec, ?_⟩
        intro data hdata
        injection hdata with hdata
        subst hdata
        exact ⟨_, rfl, by simp [hgz]⟩
      | some comp =>
        by_cases hsm : comp.length < data0.length
        · simp only [if_pos hsm]
          refine ⟨hdec, ?_⟩
          intro data hdata
          injection hdata with hdata
          subst hdata
          exact ⟨_, rfl, by simp [hgz, hsm]⟩
        · simp only [if_neg hsm]
          refine ⟨hdec, ?_⟩
          intro data hdata
          injection hdata with hdata
          subst hdata
          exact ⟨_, rfl, by simp [hgz, hsm]⟩

/-- Witness for the amended C2 at a concrete sticky-on handler: a block
whose toy-gzip output (5 bytes) is larger than the raw block (1 byte) is
sent uncompressed even though the sticky decision is on. -/
theorem handle_data_request_decision_sticky_witness :
    (handle_data_request gzToy ⟨List.replicate 32 0, 4, some true⟩
        ⟨List.replicate 32 0, 0⟩ (Except.ok [5])).1.compression_enabled = some true ∧
    ∀ data, (Except.ok [5] : Except Unit (List Nat)) = Except.ok data →
      ∃ d, (handle_data_request gzToy ⟨List.replicate 32 0, 4, some true⟩
          ⟨List.replicate 32 0, 0⟩ (Except.ok [5])).2.1 = HandlerReply.dataMsg d ∧
        d.compressed = (true && match gzToy data with
          | some c => decide (c.length < data.length)
          | Option.none => false) :=
  handle_data_request_decision_sticky gzToy ⟨List.replicate 32 0, 4, some true⟩
    ⟨List.replicate 32 0, 0⟩ (Except.ok [5]) true rfl rfl

/-- Claim C3 (sender half): every Data reply's `checksum` is the
CRC-32/ISO-HDLC of the `data` bytes actually transmitted; when
`compressed` the transmitted bytes are the gzip output, otherwise the
raw block bytes. -/
theorem handle_data_request_checksum (gz : List Nat → Option (List Nat))
    (h : ConnectionHandler) (req : RequestV1) (data : List Nat)
    (hhash : req.file_hash = h.expected_hash) :
    ∃ d, (handle_data_request gz h req (.ok data)).2.1 = HandlerReply.dataMsg d ∧
      d.checksum = crc32 d.data ∧
      (d.compressed = true → gz data = some d.data) ∧
      (d.compressed = false → d.data = data) := by
  cases hdec : h.compression_enabled with
  | some b =>
    rw [handle_data_request_ok_eval gz h req data b hhash hdec]
    cases b with
    | false =>
      rw [if_neg (by simp)]
      exact ⟨_, rfl, rfl, by simp, fun _ => rfl⟩
    | true =>
      rw [if_pos rfl]
      cases hgz : gz data with
      | none => exact ⟨_, rfl, rfl, by simp, fun _ => rfl⟩
      | some comp =>
        by_cases hsm : comp.length < data.length
        · simp only [if_pos hsm]
          exact ⟨_, rfl, rfl, fun _ => rfl, by simp⟩
        · simp only [if_neg hsm]
          exact ⟨_, rfl, rfl, by simp, fun _ => rfl⟩
  | none =>
    unfold handle_data_request
    rw [if_neg (by simp [hhash])]
    simp only [hdec]
    cases hgz : gz data with
    | none => exact ⟨_, rfl, rfl, by simp, fun _ => rfl⟩
    | some comp =>
      by_cases hsm : comp.length < data.length
      · simp only [if_pos hsm, if_pos rfl]
        exact ⟨_, rfl, rfl, fun _ => rfl, by simp⟩
      · simp only [if_neg hsm, if_pos rfl]
        exact ⟨_, rfl, rfl, by simp, fun _ => rfl⟩

/-- Claim C3 (receiver half): `process_data_block` accepts a Data message
only when the CRC-32 over the transmitted `data` bytes equals the
message's `checksum`. -/
theorem process_data_block_requires_checksum (gunzip : List Nat → Option (List Nat))
    (B : Nat) (st : RState) (seq : Nat) (d : DataV1)
    (hacc : (process_data_block gunzip B st seq d).1 = true) :
    crc32 d.data = d.checksum := by
  unfold process_data_block at hacc
  by_cases hc : crc32 d.data ≠ d.checksum
  · rw [if_pos hc] at hacc
    cases hacc
  · omega

/-- Witness for the sender half of C3 at a concrete request. -/
theorem handle_data_request_checksum_witness :
    ∃ d, (handle_data_request gzToy ⟨List.replicate 32 0, 4, Option.none⟩
        ⟨List.replicate 32 0, 0⟩ (.ok [0, 0, 0, 0])).2.1 = HandlerReply.dataMsg d ∧
      d.checksum = crc32 d.data ∧
      (d.compressed = true → gzToy [0, 0, 0, 0] = some d.data) ∧
      (d.compressed = false → d.data = [0, 0, 0, 0]) :=
  handle_data_request_checksum gzToy ⟨List.replicate 32 0, 4, Option.none⟩
    ⟨List.replicate 32 0, 0⟩ [0, 0, 0, 0] rfl

/-- Claim C10: a Data payload is sent compressed only when the gzip
encoding succeeded and came out strictly smaller than the raw block;
either way the transmitted payload never exceeds the raw block size. -/
theorem handle_data_request_payload_bound (gz : List Nat → Option (List Nat))
    (h : ConnectionHandler) (req : RequestV1) (data : List Nat)
    (hhash : req.file_hash = h.expected_hash) :
    ∃ d, (handle_data_request gz h req (.ok data)).2.1 = HandlerReply.dataMsg d ∧
      (d.compressed = true → gz data = some d.data ∧ d.data.length < data.length) ∧
      d.data.length ≤ data.length := by
  cases hdec : h.compression_enabled with
  | some b =>
    rw [handle_data_request_ok_eval gz h req data b hhash hdec]
    cases b with
    | false =>
      rw [if_neg (by simp)]
      exact ⟨_, rfl, by simp, le_refl _⟩
    | true =>
      rw [if_pos rfl]
      cases hgz : gz data with
      | none => exact ⟨_, rfl, by simp, le_refl _⟩
      | some comp =>
        by_cases hsm : comp.length < data.length
        · simp only [if_pos hsm]
          exact ⟨_, rfl, fun _ => ⟨rfl, hsm⟩, le_of_lt hsm⟩
        · simp only [if_neg hsm]
          exact ⟨_, rfl, by simp, le_refl _⟩
  | none =>
    unfold handle_data_request
    rw [if_neg (by simp [hhash])]
    simp only [hdec]
    cases hgz : gz data with
    | none => exact ⟨_, rfl, by simp, le_refl _⟩
    | some comp =>
      by_cases hsm : comp.length < data.length
      · simp only [if_pos hsm, if_pos rfl]
        exact ⟨_, rfl, fun _ => ⟨rfl, hsm⟩, le_of_lt hsm⟩
      · simp only [if_neg hsm, if_pos rfl]
        exact ⟨_, rfl, by simp, le_refl _⟩

/-- Witness for C10 at a concrete incompressible block. -/
theorem handle_data_request_payload_bound_witness :
    ∃ d, (handle_data_request gzToy ⟨List.replicate 32 0, 4, Option.none⟩
        ⟨List.replicate 32 0, 0⟩ (.ok [5])).2.1 = HandlerReply.dataMsg d ∧
      (d.compressed = true → gzToy [5] = some d.data ∧ d.data.length < [5].length) ∧
      d.data.length ≤ [5].length :=
  handle_data_request_payload_bound gzToy ⟨List.replicate 32 0, 4, Option.none⟩
    ⟨List.replicate 32 0, 0⟩ [5] rfl

/-! ### Receiver retry and backoff (claim C8) -/

theorem download_attempt_fail_state (gunzip : List Nat → Option (List Nat)) (B : Nat)
    (st : RState) (seq : Nat) (ev : WireEvent)
    (h : (download_block_with_retry gunzip B st seq ev).1 = false) :
    (download_block_with_retry gunzip B st seq ev).2 = st := by
  cases ev with
  | sendFail => rfl
  | readFail => rfl
  | msg m =>
    cases m with
    | Data d =>
      simp only [download_block_with_retry, process_data_block] at h ⊢
      by_cases hc : crc32 d.data ≠ d.checksum
      · rw [if_pos hc]
      · rw [if_neg hc] at h ⊢
        cases hbd : (if d.compressed = true then gunzip d.data else some d.data) with
        | none => rfl
        | some bd =>
          rw [hbd] at h
          cases h
    | Handshake x => rfl
    | Error x => rfl
    | VerifyResponse x => rfl

/-- Claim C8 counterexample: when every attempt for a block fails, the
sleeps actually performed between the five attempts are 1000, 2000,
4000 and 8000 ms — the first sleep is 1000 ms, not the claimed 500 ms,
because the code doubles `retry_delay` before sleeping for the first
time. -/
theorem downloadLoop_first_sleep_not_500 :
    (downloadLoop (fun _ => Option.none) 1 ⟨[false], [], 0⟩ 0 (fun _ => WireEvent.readFail)
        0 0 INITIAL_RETRY_DELAY_MS []).2 = [1000, 2000, 4000, 8000] := by
  rw [downloadLoop, downloadLoop, downloadLoop, downloadLoop, downloadLoop]
  norm_num [download_block_with_retry, MAX_RETRIES, INITIAL_RETRY_DELAY_MS]

/-- Claim C8 as amended: each block gets at most `MAX_RETRIES = 5`
attempts; the sleeps between consecutive attempts start at 1000 ms (the
500 ms initial delay is doubled *before* the first sleep) and double
with each retry; exhausting all five attempts returns the timeout error
(`none`) rather than moving on.  Attempt outcomes are evaluated against
the entry state, which failed attempts leave unchanged. -/
theorem downloadLoop_bounded_retry_backoff (gunzip : List Nat → Option (List Nat))
    (B : Nat) (st : RState) (seq : Nat) (events : Nat → WireEvent) :
    ((∀ k, k < MAX_RETRIES →
        (download_block_with_retry gunzip B st seq (events k)).1 = false) →
      downloadLoop gunzip B st seq events 0 0 INITIAL_RETRY_DELAY_MS []
        = (none, [1000, 2000, 4000, 8000])) ∧
    (∀ k, k < MAX_RETRIES →
      (∀ j, j < k → (download_block_with_retry gunzip B st seq (events j)).1 = false) →
      (download_block_with_retry gunzip B st seq (events k)).1 = true →
      downloadLoop gunzip B st seq events 0 0 INITIAL_RETRY_DELAY_MS []
        = (some { (download_block_with_retry gunzip B st seq (events k)).2 with
              flags := (download_block_with_retry gunzip B st seq (events k)).2.flags.set seq true },
           List.take k [1000, 2000, 4000, 8000])) := by
  constructor
  · intro hfail
    have h0 := hfail 0 (by norm_num [MAX_RETRIES])
    have h1 := hfail 1 (by norm_num [MAX_RETRIES])
    have h2 := hfail 2 (by norm_num [MAX_RETRIES])
    have h3 := hfail 3 (by norm_num [MAX_RETRIES])
    have h4 := hfail 4 (by norm_num [MAX_RETRIES])
    have e0 := download_attempt_fail_state gunzip B st seq (events 0) h0
    have e1 := download_attempt_fail_state gunzip B st seq (events 1) h1
    have e2 := download_attempt_fail_state gunzip B st seq (events 2) h2
    have e3 := download_attempt_fail_state gunzip B st seq (events 3) h3
    rw [downloadLoop]
    simp only [h0, e0, Bool.false_eq_true, if_false, MAX_RETRIES, INITIAL_RETRY_DELAY_MS]
    norm_num
    rw [downloadLoop]
    simp only [h1, e1, Bool.false_eq_true, if_false, MAX_RETRIES]
    norm_num
    rw [downloadLoop]
    simp only [h2, e2, Bool.false_eq_true, if_false, MAX_RETRIES]
    norm_num
    rw [downloadLoop]
    simp only [h3, e3, Bool.false_eq_true, if_false, MAX_RETRIES]
    norm_num
    rw [downloadLoop]
    simp only [h4, Bool.false_eq_true, if_false, MAX_RETRIES]
    norm_num
  · intro k hk hfail hsucc
    simp only [MAX_RETRIES] at hk
    interval_cases k
    · rw [downloadLoop]
      simp only [hsucc, if_true]
      rfl
    · have h0 := hfail 0 (by norm_num)
      have e0 := download_attempt_fail_state gunzip B st seq (events 0) h0
      rw [downloadLoop]
      simp only [h0, e0, Bool.false_eq_true, if_false, MAX_RETRIES, INITIAL_RETRY_DELAY_MS]
      norm_num
      rw [downloadLoop]
      simp only [hsucc, if_true]
      try rfl
    · have h0 := hfail 0 (by norm_num)
      have h1 := hfail 1 (by norm_num)
      have e0 := download_attempt_fail_state gunzip B st seq (events 0) h0
      have e1 := download_attempt_fail_state gunzip B st seq (events 1) h1
      rw [downloadLoop]
      simp only [h0, e0, Bool.false_eq_true, if_false, MAX_RETRIES, INITIAL_RETRY_DELAY_MS]
      norm_num
      rw [downloadLoop]
      simp only [h1, e1, Bool.false_eq_true, if_false, MAX_RETRIES]
      norm_num
      rw [downloadLoop]
      simp only [hsucc, if_true]
      try rfl
    · have h0 := hfail 0 (by norm_num)
      have h1 := hfail 1 (by norm_num)
      have h2 := hfail 2 (by norm_num)
      have e0 := download_attempt_fail_state gunzip B st seq (events 0) h0
      have e1 := download_attempt_fail_state gunzip B st seq (events 1) h1
      have e2 := download_attempt_fail_state gunzip B st seq (events 2) h2
      rw [downloadLoop]
      simp only [h0, e0, Bool.false_eq_true, if_false, MAX_RETRIES, INITIAL_RETRY_DELAY_MS]
      norm_num
      rw [downloadLoop]
      simp only [h1, e1, Bool.false_eq_true, if_false, MAX_RETRIES]
      norm_num
      rw [downloadLoop]
      simp only [h2, e2, Bool.false_eq_true, if_false, MAX_RETRIES]
      norm_num
      rw [downloadLoop]
      simp only [hsucc, if_true]
      try rfl
    · have h0 := hfail 0 (by norm_num)
      have h1 := hfail 1 (by norm_num)
      have h2 := hfail 2 (by norm_num)
      have h3 := hfail 3 (by norm_num)
      have e0 := download_attempt_fail_state gunzip B st seq (events 0) h0
      have e1 := download_attempt_fail_state gunzip B st seq (events 1) h1
      have e2 := download_attempt_fail_state gunzip B st seq (events 2) h2
      have e3 := download_attempt_fail_state gunzip B st seq (events 3) h3
      rw [downloadLoop]
      simp only [h0, e0, Bool.false_eq_true, if_false, MAX_RETRIES, INITIAL_RETRY_DELAY_MS]
      norm_num
      rw [downloadLoop]
      simp only [h1, e1, Bool.false_eq_true, if_false, MAX_RETRIES]
      norm_num
      rw [downloadLoop]
      simp only [h2, e2, Bool.false_eq_true, if_false, MAX_RETRIES]
      norm_num
      rw [downloadLoop]
      simp only [h3, e3, Bool.false_eq_true, if_false, MAX_RETRIES]
      norm_num
      rw [downloadLoop]
      simp only [hsucc, if_true]
      try rfl

/-- Witness for the amended C8: a concrete always-failing oracle exhausts
the five attempts with sleeps 1000, 2000, 4000, 8000 ms and times out. -/
theorem downloadLoop_bounded_retry_backoff_witness :
    downloadLoop (fun _ => Option.none) 1 ⟨[false, false], [3, 1, 4, 1], 0⟩ 0
        (fun _ => WireEvent.sendFail) 0 0 INITIAL_RETRY_DELAY_MS []
      = (none, [1000, 2000, 4000, 8000]) :=
  (downloadLoop_bounded_retry_backoff (fun _ => Option.none) 1 ⟨[false, false], [3, 1, 4, 1], 0⟩ 0
    (fun _ => WireEvent.sendFail)).1 (by intro k _; rfl)

/-! ### Verify-first pass per-block behavior (claim C9) -/

/-- Claim C9: for a challenged block, the flag is set and `bytes_received`
grows by the local block length exactly when the frame read back is a
`VerifyResponse` whose `seq` matches and whose `valid` is true; on a seq
mismatch, `valid == false`, an `Error`, or any other variant, the state
is left untouched. -/
theorem verify_block_step_spec (B : Nat) (st : RState) (seq : Nat)
    (resp : SenderMessageV1) :
    (read_verify_response resp seq = true ↔
      ∃ r, resp = SenderMessageV1.VerifyResponse r ∧ r.seq = seq ∧ r.valid = true) ∧
    (read_verify_response resp seq = true →
      verify_block_step B st seq resp =
        { st with flags := st.flags.set seq true,
                  bytes := st.bytes + (read_file_block st.disk seq B).length }) ∧
    (read_verify_response resp seq = false → verify_block_step B st seq resp = st) := by
  refine ⟨?_, ?_, ?_⟩
  · cases resp with
    | VerifyResponse r =>
      unfold read_verify_response
      by_cases hs : r.seq = seq
      · subst hs
        simp
      · simp [hs]
    | Handshake x => simp [read_verify_response]
    | Data x => simp [read_verify_response]
    | Error x => simp [read_verify_response]
  · intro hvalid
    simp only [verify_block_step]
    rw [if_pos hvalid]
  · intro hinvalid
    simp only [verify_block_step]
    rw [if_neg (by simp [hinvalid])]

/-! ### Block-flag invariant (claim C1) -/

theorem getD_set_true_mono (l : List Bool) (i j : Nat) (h : l.getD i false = true) :
    (l.set j true).getD i false = true := by
  rw [List.getD_eq_getElem?_getD] at h ⊢
  rw [List.getElem?_set]
  by_cases hji : j = i
  · subst hji
    by_cases hl : j < l.length
    · rw [if_pos rfl, if_pos hl]
      rfl
    · rw [List.getElem?_eq_none (le_of_not_lt hl)] at h
      cases h
  · rw [if_neg hji]
    exact h

theorem getD_set_true_cases (l : List Bool) (i j : Nat)
    (h : (l.set j true).getD i false = true) : i = j ∨ l.getD i false = true := by
  rw [List.getD_eq_getElem?_getD, List.getElem?_set] at h
  by_cases hji : j = i
  · exact Or.inl hji.symm
  · rw [if_neg hji] at h
    right
    rw [List.getD_eq_getElem?_getD]
    exact h

theorem getD_set_true_self (l : List Bool) (j : Nat) (hj : j < l.length) :
    (l.set j true).getD j false = true := by
  rw [List.getD_eq_getElem?_getD, List.getElem?_set, if_pos rfl, if_pos hj]
  rfl

theorem write_file_block_readback (disk : List Nat) (seq B : Nat) (data : List Nat) :
    ((write_file_block disk seq B data).drop (seq * B)).take data.length = data := by
  simp only [write_file_block]
  have hlen : (disk.take (seq * B) ++
      List.replicate (seq * B - (disk.take (seq * B)).length) 0).length = seq * B := by
    simp only [List.length_append, List.length_take, List.length_replicate]
    omega
  have hassoc : disk.take (seq * B) ++
        List.replicate (seq * B - (disk.take (seq * B)).length) 0 ++ data ++
        disk.drop (seq * B + data.length)
      = (disk.take (seq * B) ++ List.replicate (seq * B - (disk.take (seq * B)).length) 0) ++
        (data ++ disk.drop (seq * B + data.length)) := by
    simp [List.append_assoc]
  rw [hassoc, List.drop_left' hlen, List.take_left' rfl]

theorem download_attempt_success (gunzip : List Nat → Option (List Nat)) (B : Nat)
    (st : RState) (seq : Nat) (ev : WireEvent)
    (h : (download_block_with_retry gunzip B st seq ev).1 = true) :
    ∃ d bd, ev = WireEvent.msg (SenderMessageV1.Data d) ∧
      crc32 d.data = d.checksum ∧
      (d.compressed = true → gunzip d.data = some bd) ∧
      (d.compressed = false → bd = d.data) ∧
      (download_block_with_retry gunzip B st seq ev).2 =
        { st with disk := write_file_block st.disk seq B bd,
                  bytes := st.bytes + bd.length } := by
  cases ev with
  | sendFail => cases h
  | readFail => cases h
  | msg m =>
    cases m with
    | Handshake x => cases h
    | Error x => cases h
    | VerifyResponse x => cases h
    | Data d =>
      simp only [download_block_with_retry, process_data_block] at h ⊢
      by_cases hc : crc32 d.data ≠ d.checksum
      · rw [if_pos hc] at h
        cases h
      · rw [if_neg hc] at h ⊢
        cases hbd : (if d.compressed = true then gunzip d.data else some d.data) with
        | none =>
          rw [hbd] at h
          cases h
        | some bd =>
          refine ⟨d, bd, rfl, by omega, ?_, ?_, rfl⟩
          · intro hcomp
            rw [if_pos hcomp] at hbd
            exact hbd
          · intro hcomp
            rw [hcomp] at hbd
            simp only [Bool.false_eq_true, if_false] at hbd
            injection hbd with hbd
            exact hbd.symm

theorem downloadLoop_some_characterize (gunzip : List Nat → Option (List Nat)) (B : Nat)
    (st : RState) (seq : Nat) (events : Nat → WireEvent) :
    ∀ n attempt rc delay sleeps st' sl, MAX_RETRIES - rc = n →
      downloadLoop gunzip B st seq events attempt rc delay sleeps = (some st', sl) →
      ∃ k, (download_block_with_retry gunzip B st seq (events k)).1 = true ∧
        st' = { (download_block_with_retry gunzip B st seq (events k)).2 with
          flags := (download_block_with_retry gunzip B st seq (events k)).2.flags.set seq true } := by
  intro n
  induction n using Nat.strong_induction_on with
  | _ n ih =>
    intro attempt rc delay sleeps st' sl hn hrun
    rw [downloadLoop] at hrun
    by_cases hstep : (download_block_with_retry gunzip B st seq (events attempt)).1 = true
    · simp only [hstep, if_true] at hrun
      refine ⟨attempt, hstep, ?_⟩
      injection hrun with h1 h2
      injection h1 with h1
      exact h1.symm
    · simp only [hstep, Bool.false_eq_true, if_false] at hrun
      by_cases hrc : MAX_RETRIES ≤ rc + 1
      · rw [if_pos hrc] at hrun
        cases hrun
      · rw [if_neg hrc] at hrun
        rw [download_attempt_fail_state gunzip B st seq (events attempt)
          (by simpa using hstep)] at hrun
        exact ih (MAX_RETRIES - (rc + 1)) (by omega) (attempt + 1) (rc + 1) (delay * 2)
          (sleeps ++ [delay * 2]) st' sl rfl hrun

theorem verify_pass_invariant (B : Nat) (oracle : Nat → SenderMessageV1) :
    ∀ n st current range_end, range_end - current = n →
      (verify_existing_blocks B oracle st current range_end).disk = st.disk ∧
      (∀ i, st.flags.getD i false = true →
        (verify_existing_blocks B oracle st current range_end).flags.getD i false = true) ∧
      (∀ i, (verify_existing_blocks B oracle st current range_end).flags.getD i false = true →
        st.flags.getD i false = true ∨
          ∃ r, oracle i = SenderMessageV1.VerifyResponse r ∧ r.seq = i ∧ r.valid = true) := by
  intro n
  induction n using Nat.strong_induction_on with
  | _ n ih =>
    intro st current range_end hn
    rw [verify_existing_blocks]
    by_cases hend : range_end ≤ current
    · rw [if_pos hend]
      exact ⟨rfl, fun i h => h, fun i h => Or.inl h⟩
    · rw [if_neg hend]
      by_cases hskip : st.flags.getD current false = true
      · simp only [hskip, if_true]
        exact ih (range_end - (current + 1)) (by omega) st (current + 1) range_end rfl
      · simp only [hskip, Bool.false_eq_true, if_false]
        by_cases hempty : (read_file_block st.disk current B).isEmpty = true
        · simp only [hempty, if_true]
          exact ih (range_end - (current + 1)) (by omega) st (current + 1) range_end rfl
        · simp only [hempty, Bool.false_eq_true, if_false]
          have hrec := ih (range_end - (current + 1)) (by omega)
            (verify_block_step B st current (oracle current)) (current + 1) range_end rfl
          by_cases hvalid : read_verify_response (oracle current) current = true
          · have hstep : verify_block_step B st current (oracle current) =
                { st with flags := st.flags.set current true,
                          bytes := st.bytes + (read_file_block st.disk current B).length } := by
              simp only [verify_block_step]
              rw [if_pos hvalid]
            rw [hstep] at hrec ⊢
            refine ⟨hrec.1, ?_, ?_⟩
            · intro i hi
              exact hrec.2.1 i (getD_set_true_mono st.flags i current hi)
            · intro i hi
              rcases hrec.2.2 i hi with hflag | hor
              · rcases getD_set_true_cases st.flags i current hflag with hic | hold
                · subst hic
                  right
                  cases horacle : oracle i with
                  | VerifyResponse r =>
                    refine ⟨r, rfl, ?_⟩
                    rw [horacle] at hvalid
                    simp only [read_verify_response] at hvalid
                    by_cases hrseq : r.seq = i
                    · exact ⟨hrseq, by rwa [if_neg (by simp [hrseq])] at hvalid⟩
                    · rw [if_pos (by simpa using hrseq)] at hvalid
                      cases hvalid
                  | Handshake x =>
                    rw [horacle] at hvalid
                    simp [read_verify_response] at hvalid
                  | Data x =>
                    rw [horacle] at hvalid
                    simp [read_verify_response] at hvalid
                  | Error x =>
                    rw [horacle] at hvalid
                    simp [read_verify_response] at hvalid
                · exact Or.inl hold
              · exact Or.inr hor
          · have hstep : verify_block_step B st current (oracle current) = st := by
              simp only [verify_block_step]
              rw [if_neg (by simp [Bool.not_eq_true] at hvalid; simp [hvalid])]
            rw [hstep] at hrec ⊢
            exact hrec

theorem download_pass_mono (gunzip : List Nat → Option (List Nat)) (B : Nat)
    (events : Nat → Nat → WireEvent) :
    ∀ n st current range_end st', range_end - current = n →
      download_missing_blocks gunzip B events st current range_end = some st' →
      ∀ i, st.flags.getD i false = true → st'.flags.getD i false = true := by
  intro n
  induction n using Nat.strong_induction_on with
  | _ n ih =>
    intro st current range_end st' hn hrun i hi
    rw [download_missing_blocks] at hrun
    by_cases hend : range_end ≤ current
    · rw [if_pos hend] at hrun
      injection hrun with hrun
      rw [← hrun]
      exact hi
    · rw [if_neg hend] at hrun
      by_cases hskip : st.flags.getD current false = true
      · simp only [hskip, if_true] at hrun
        exact ih (range_end - (current + 1)) (by omega) st (current + 1) range_end st' rfl hrun i hi
      · simp only [hskip, Bool.false_eq_true, if_false] at hrun
        cases hdl : downloadLoop gunzip B st current (events current) 0 0
            INITIAL_RETRY_DELAY_MS [] with
        | mk res sl =>
          rw [hdl] at hrun
          cases res with
          | none => cases hrun
          | some st₁ =>
            obtain ⟨k, hk, hst₁⟩ := downloadLoop_some_characterize gunzip B st current
              (events current) (MAX_RETRIES - 0) 0 0 INITIAL_RETRY_DELAY_MS [] st₁ sl rfl hdl
            obtain ⟨d, bd, hev, hcrc, hcz, hcz2, hst₂⟩ :=
              download_attempt_success gunzip B st current (events current k) hk
            have hflags : st₁.flags = st.flags.set current true := by
              rw [hst₁, hst₂]
            exact ih (range_end - (current + 1)) (by omega) st₁ (current + 1) range_end st' rfl
              hrun i (by rw [hflags]; exact getD_set_true_mono st.flags i current hi)

/-- Claim C1: the `received_blocks` flags never oscillate and a flag is set
only behind verified content.  (a) The verify pass never writes to the
file, only raises flags, and raises flag `i` only when the sender's
response for `i` was a matching `VerifyResponse` with `valid = true`.
(b) The download pass only raises flags.  (c) The bounded-retry loop
that downloads block `seq` returns a state whose flags are exactly the
entry flags with `seq` raised, whose file contents at offset
`seq * B` are the accepted block bytes — checksum-verified against the
transmitted bytes, and gzip-decoded when the message was compressed —
and whose byte counter grew by that block's length. -/
theorem received_blocks_monotone_and_verified (B : Nat) :
    (∀ (oracle : Nat → SenderMessageV1) st current range_end,
      (verify_existing_blocks B oracle st current range_end).disk = st.disk ∧
      (∀ i, st.flags.getD i false = true →
        (verify_existing_blocks B oracle st current range_end).flags.getD i false = true) ∧
      (∀ i, (verify_existing_blocks B oracle st current range_end).flags.getD i false = true →
        st.flags.getD i false = true ∨
          ∃ r, oracle i = SenderMessageV1.VerifyResponse r ∧ r.seq = i ∧ r.valid = true)) ∧
    (∀ (gunzip : List Nat → Option (List Nat)) (events : Nat → Nat → WireEvent)
        st current range_end st',
      download_missing_blocks gunzip B events st current range_end = some st' →
      ∀ i, st.flags.getD i false = true → st'.flags.getD i false = true) ∧
    (∀ (gunzip : List Nat → Option (List Nat)) (events : Nat → WireEvent)
        st seq attempt rc delay sleeps st' sl,
      downloadLoop gunzip B st seq events attempt rc delay sleeps = (some st', sl) →
      ∃ k d bd, events k = WireEvent.msg (SenderMessageV1.Data d) ∧
        crc32 d.data = d.checksum ∧
        (d.compressed = true → gunzip d.data = some bd) ∧
        (d.compressed = false → bd = d.data) ∧
        st'.flags = st.flags.set seq true ∧
        (st'.disk.drop (seq * B)).take bd.length = bd ∧
        st'.bytes = st.bytes + bd.length) := by
  refine ⟨?_, ?_, ?_⟩
  · intro oracle st current range_end
    exact verify_pass_invariant B oracle (range_end - current) st current range_end rfl
  · intro gunzip events st current range_end st' hrun i hi
    exact download_pass_mono gunzip B events (range_end - current) st current range_end st'
      rfl hrun i hi
  · intro gunzip events st seq attempt rc delay sleeps st' sl hrun
    obtain ⟨k, hk, hst'⟩ := downloadLoop_some_characterize gunzip B st seq events
      (MAX_RETRIES - rc) attempt rc delay sleeps st' sl rfl hrun
    obtain ⟨d, bd, hev, hcrc, hcz, hcz2, hst₂⟩ :=
      download_attempt_success gunzip B st seq (events k) hk
    refine ⟨k, d, bd, hev, hcrc, hcz, hcz2, ?_, ?_, ?_⟩
    · rw [hst', hst₂]
    · rw [hst', hst₂]
      exact write_file_block_readback st.disk seq B bd
    · rw [hst', hst₂]

/-- Witness for C1 at a concrete verify pass over an already-complete
single-block state: the pass leaves the disk and the flags unchanged. -/
theorem received_blocks_monotone_and_verified_witness :
    (verify_existing_blocks 4 (fun _ => SenderMessageV1.Error ⟨1, []⟩)
        ⟨[true], [9, 9, 9, 9], 4⟩ 0 1).disk = ([9, 9, 9, 9] : List Nat) ∧
    (verify_existing_blocks 4 (fun _ => SenderMessageV1.Error ⟨1, []⟩)
        ⟨[true], [9, 9, 9, 9], 4⟩ 0 1).flags.getD 0 false = true :=
  ⟨((received_blocks_monotone_and_verified 4).1 (fun _ => SenderMessageV1.Error ⟨1, []⟩)
      ⟨[true], [9, 9, 9, 9], 4⟩ 0 1).1,
   ((received_blocks_monotone_and_verified 4).1 (fun _ => SenderMessageV1.Error ⟨1, []⟩)
      ⟨[true], [9, 9, 9, 9], 4⟩ 0 1).2.1 0 rfl⟩

/-! ### Frame writer/reader analysis (claims C4, C6, C7) -/

theorem varintEncode_lt (n : Nat) (h : n < 128) : varintEncode n = [n] := by
  rw [varintEncode, dif_pos h]

theorem decBytes_lt (n : Nat) (h : n < 10) : decBytes n = [48 + n] := by
  rw [decBytes, decBytesAux, dif_pos h]

theorem decBytes_one : decBytes 1 = [49] := decBytes_lt 1 (by norm_num)

theorem dropWhile_eq_self_of_head (p : Nat → Bool) (l : List Nat)
    (h : ∀ x, l.head? = some x → p x = false) : l.dropWhile p = l := by
  cases l with
  | nil => rfl
  | cons a m =>
    rw [List.dropWhile_cons, if_neg (by rw [h a rfl]; simp)]

theorem trimAscii_eq_self (l : List Nat)
    (h1 : ∀ x, l.head? = some x → isAsciiWhitespace x = false)
    (h2 : ∀ x, l.getLast? = some x → isAsciiWhitespace x = false) :
    trimAscii l = l := by
  unfold trimAscii
  rw [dropWhile_eq_self_of_head _ l h1]
  rw [dropWhile_eq_self_of_head _ l.reverse
    (fun x hx => h2 x (by rwa [List.head?_reverse] at hx))]
  exact List.reverse_reverse l

theorem splitNL_append_no_delim (x : List Nat) (rest : List Nat)
    (hx : ∀ b ∈ x, ¬(b = 13 ∨ b = 10)) :
    ∃ s ss, splitNL rest = s :: ss ∧ splitNL (x ++ rest) = (x ++ s) :: ss := by
  induction x with
  | nil =>
    cases hs : splitNL rest with
    | nil => exact absurd hs (splitNL_ne_nil rest)
    | cons s ss => exact ⟨s, ss, rfl, by simpa using hs⟩
  | cons b m ih =>
    obtain ⟨s, ss, hs, hms⟩ := ih (fun c hc => hx c (List.mem_cons_of_mem b hc))
    obtain ⟨s2, ss2, hs2, hbs⟩ :=
      splitNL_cons_of_not_delim b (m ++ rest) (hx b (List.mem_cons_self b m))
    rw [hms] at hs2
    injection hs2 with e1 e2
    refine ⟨s, ss, hs, ?_⟩
    rw [List.cons_append, hbs, ← e1, ← e2]
    simp

theorem splitNL_no_delim (l : List Nat) (h : ∀ b ∈ l, ¬(b = 13 ∨ b = 10)) :
    splitNL l = [l] := by
  obtain ⟨s, ss, hs, hls⟩ := splitNL_append_no_delim l [] h
  simp only [splitNL] at hs
  injection hs with e1 e2
  rw [List.append_nil] at hls
  rw [hls, ← e1, ← e2]
  simp

theorem attach_headers_eq (p : List Nat) :
    attach_headers p =
      ([86, 101, 114, 58, 32, 49, 13, 10, 76, 101, 110, 58, 32] ++ decBytes p.length)
        ++ [13, 10, 13, 10] ++ p := by
  unfold attach_headers versionHeaderBytes lengthHeaderBytes MESSAGE_DELIMITER
    CURRENT_PROTOCOL_VERSION
  rw [decBytes_one]
  simp

theorem attach_headers_length (p : List Nat) :
    (attach_headers p).length = 17 + (decBytes p.length).length + p.length := by
  rw [attach_headers_eq]
  simp
  omega

theorem header_no_early_delim (n : Nat) (p : List Nat) :
    ∀ j, j < ([86, 101, 114, 58, 32, 49, 13, 10, 76, 101, 110, 58, 32] ++
        decBytes n).length →
      (((([86, 101, 114, 58, 32, 49, 13, 10, 76, 101, 110, 58, 32] ++ decBytes n)
          ++ [13, 10, 13, 10] ++ p).drop j).take 4) ≠ [13, 10, 13, 10] := by
  intro j hj hcontra
  obtain ⟨hje, hj2⟩ := take4_eq_delim_get _ j hcontra
  have hx : ∀ k, k < ([86, 101, 114, 58, 32, 49, 13, 10, 76, 101, 110, 58, 32] ++
      decBytes n).length →
      ((([86, 101, 114, 58, 32, 49, 13, 10, 76, 101, 110, 58, 32] ++ decBytes n)
        ++ [13, 10, 13, 10] ++ p)[k]? =
       ([86, 101, 114, 58, 32, 49, 13, 10, 76, 101, 110, 58, 32] ++ decBytes n)[k]?) := by
    intro k hk
    rw [List.append_assoc, List.getElem?_append, if_pos hk]
  rw [hx j hj] at hje
  have hj6 : j = 6 := by
    by_cases hj13 : j < 13
    · rw [List.getElem?_append, if_pos (by simpa using hj13)] at hje
      interval_cases j <;> simp_all
    · rw [List.getElem?_append, if_neg (by simpa using hj13)] at hje
      have h13mem : (13 : Nat) ∈ decBytes n := by
        obtain ⟨hlt, hval⟩ := List.getElem?_eq_some.mp hje
        exact hval ▸ List.getElem_mem hlt
      have := decBytes_digits n 13 h13mem
      omega
  subst hj6
  rw [hx 8 (by simp only [List.length_append, List.length_cons, List.length_nil]; omega)] at hj2
  rw [List.getElem?_append, if_pos (by norm_num)] at hj2
  simp at hj2

theorem findDelim_frame (n : Nat) (p : List Nat) :
    findDelimAux ((([86, 101, 114, 58, 32, 49, 13, 10, 76, 101, 110, 58, 32] ++
        decBytes n) ++ [13, 10, 13, 10] ++ p)) 0
      = some (13 + (decBytes n).length) := by
  rw [findDelimAux_append _ _ 0 (header_no_early_delim n p)]
  congr 1
  simp only [List.length_append, List.length_cons, List.length_nil]
  omega

theorem splitNL_header (n : Nat) :
    splitNL ([86, 101, 114, 58, 32, 49, 13, 10, 76, 101, 110, 58, 32] ++ decBytes n)
      = [[86, 101, 114, 58, 32, 49], [], [76, 101, 110, 58, 32] ++ decBytes n] := by
  have hshape : [86, 101, 114, 58, 32, 49, 13, 10, 76, 101, 110, 58, 32] ++ decBytes n
      = [86, 101, 114, 58, 32, 49] ++
        (13 :: 10 :: ([76, 101, 110, 58, 32] ++ decBytes n)) := by
    simp
  rw [hshape]
  have htail : splitNL ([76, 101, 110, 58, 32] ++ decBytes n)
      = [[76, 101, 110, 58, 32] ++ decBytes n] := by
    apply splitNL_no_delim
    intro b hb
    rcases List.mem_append.mp hb with h1 | h2
    · simp at h1
      rcases h1 with h | h | h | h | h <;> omega
    · have := decBytes_digits n b h2
      omega
  have hrest : splitNL (13 :: 10 :: ([76, 101, 110, 58, 32] ++ decBytes n))
      = [] :: [] :: [[76, 101, 110, 58, 32] ++ decBytes n] := by
    rw [splitNL, if_pos (by norm_num)]
    rw [splitNL, if_pos (by norm_num)]
    rw [htail]
  obtain ⟨s, ss, hs, hls⟩ := splitNL_append_no_delim [86, 101, 114, 58, 32, 49]
    (13 :: 10 :: ([76, 101, 110, 58, 32] ++ decBytes n)) (by decide)
  rw [hrest] at hs
  injection hs with e1 e2
  rw [hls, ← e1, ← e2]
  simp

theorem trimAscii_lenline (n : Nat) :
    trimAscii ([76, 101, 110, 58, 32] ++ decBytes n) = [76, 101, 110, 58, 32] ++ decBytes n := by
  apply trimAscii_eq_self
  · intro x hx
    simp at hx
    rw [← hx]
    rfl
  · intro x hx
    obtain ⟨ds, d, hd⟩ : ∃ ds d, decBytes n = List.concat ds d := by
      rcases List.eq_nil_or_concat (decBytes n) with h | ⟨ds, d, h⟩
      · exact absurd h (decBytes_ne_nil n)
      · exact ⟨ds, d, h⟩
    rw [hd] at hx
    rw [List.concat_eq_append, ← List.append_assoc, List.getLast?_concat] at hx
    have hdig : 48 ≤ d ∧ d ≤ 57 := by
      apply decBytes_digits n
      rw [hd, List.concat_eq_append]
      simp
    injection hx with hx
    rw [← hx]
    unfold isAsciiWhitespace
    simp
    omega

theorem trimAscii_digits (n : Nat) : trimAscii (decBytes n) = decBytes n := by
  apply trimAscii_eq_self
  · intro x hx
    have hmem : x ∈ decBytes n := List.mem_of_mem_head? hx
    have := decBytes_digits n x hmem
    unfold isAsciiWhitespace
    simp
    omega
  · intro x hx
    have hmem : x ∈ decBytes n := by
      rw [← List.head?_reverse] at hx
      exact List.mem_reverse.mp (List.mem_of_mem_head? hx)
    have := decBytes_digits n x hmem
    unfold isAsciiWhitespace
    simp
    omega

theorem parse_header_line_version :
    parse_header_line [86, 101, 114, 58, 32, 49] versionHeaderBytes.length U8_MAX
      = .ok 1 := by
  unfold parse_header_line
  rw [if_neg (by simp [versionHeaderBytes])]
  have hdrop : [86, 101, 114, 58, 32, 49].drop versionHeaderBytes.length = [49] := by
    simp [versionHeaderBytes]
  rw [hdrop]
  have htrim : trimAscii [49] = [49] := by decide
  rw [htrim]
  rw [if_pos (isValidUtf8_of_ascii [49] (by decide))]
  have hparse : parseDecimal [49] = some 1 := by decide
  rw [hparse]
  rfl

theorem parse_header_line_length (n : Nat) (hn : n ≤ USIZE_MAX) :
    parse_header_line ([76, 101, 110, 58, 32] ++ decBytes n) lengthHeaderBytes.length
      USIZE_MAX = .ok n := by
  unfold parse_header_line
  rw [if_neg (by simp [lengthHeaderBytes])]
  have hdrop : ([76, 101, 110, 58, 32] ++ decBytes n).drop lengthHeaderBytes.length
      = decBytes n := by
    have : lengthHeaderBytes.length = ([76, 101, 110, 58, 32] : List Nat).length := by
      simp [lengthHeaderBytes]
    rw [this, List.drop_left]
  rw [hdrop, trimAscii_digits n]
  rw [if_pos (isValidUtf8_of_ascii (decBytes n)
    (fun b hb => by have := decBytes_digits n b hb; omega))]
  rw [parseDecimal_decBytes n]
  show (if n ≤ USIZE_MAX then (Except.ok n : Except StreamReadError Nat)
    else Except.error StreamReadError.InvalidMessageFormat) = Except.ok n
  rw [if_pos hn]

theorem parse_all_headers_frame (n : Nat) (hn : n ≤ USIZE_MAX) :
    parse_all_headers ([86, 101, 114, 58, 32, 49, 13, 10, 76, 101, 110, 58, 32] ++
      decBytes n) = .ok 1 n := by
  unfold parse_all_headers
  rw [splitNL_header n]
  have hfilter : ([[86, 101, 114, 58, 32, 49], [],
      [76, 101, 110, 58, 32] ++ decBytes n]).filter (fun l => l ≠ []) =
      [[86, 101, 114, 58, 32, 49], [76, 101, 110, 58, 32] ++ decBytes n] := by
    have hne : ([76, 101, 110, 58, 32] ++ decBytes n) ≠ [] := by simp
    simp [List.filter, hne]
  rw [hfilter]
  simp only [List.map_cons, List.map_nil]
  have htrimv : trimAscii [86, 101, 114, 58, 32, 49] = [86, 101, 114, 58, 32, 49] := by
    decide
  rw [htrimv, trimAscii_lenline n]
  rw [parse_header_line_version, parse_header_line_length n hn]

theorem streamRead_single (space : Nat) (c : List Nat) (h : c.length ≤ space) :
    streamRead space [c] = (c, []) := by
  simp only [streamRead]
  rw [if_pos h]

theorem writeAt_zero (buffer chunk : List Nat) :
    writeAt buffer 0 chunk = chunk ++ buffer.drop chunk.length := by
  unfold writeAt
  simp

theorem findDelim_attach (p : List Nat) :
    findDelimAux (attach_headers p) 0 = some (13 + (decBytes p.length).length) := by
  rw [attach_headers_eq p]
  exact findDelim_frame p.length p

theorem readHeaderPhase_full_frame (p buffer : List Nat) (fuel : Nat)
    (hfit : (attach_headers p).length ≤ buffer.length) :
    readHeaderPhase (fuel + 1) [attach_headers p] buffer 0 =
      some (.ok (13 + (decBytes p.length).length,
        attach_headers p ++ buffer.drop (attach_headers p).length,
        (attach_headers p).length, [])) := by
  have hlen := attach_headers_length p
  rw [readHeaderPhase]
  rw [if_neg (by omega)]
  rw [Nat.sub_zero, streamRead_single buffer.length (attach_headers p) hfit]
  simp only [Nat.zero_add, Nat.zero_sub, List.drop_zero, writeAt_zero]
  rw [if_neg (by omega)]
  rw [List.take_left' rfl]
  rw [findDelim_attach p]
  simp

theorem readPayloadPhase_done (fuel : Nat) (chunks : List (List Nat)) (buffer : List Nat)
    (total expected : Nat) (h : expected ≤ total) :
    readPayloadPhase fuel chunks buffer total expected = some (buffer, total, chunks) := by
  unfold readPayloadPhase
  rw [if_pos h]

theorem readPayloadPhase_closed_stream (expected : Nat) :
    ∀ fuel buffer total, total < expected →
      readPayloadPhase fuel [] buffer total expected = none := by
  intro fuel
  induction fuel with
  | zero =>
    intro buffer total h
    unfold readPayloadPhase
    rw [if_neg (by omega)]
  | succ f ih =>
    intro buffer total h
    rw [readPayloadPhase]
    rw [if_neg (by omega)]
    show readPayloadPhase f [] (writeAt buffer total []) (total + List.length []) expected = none
    exact ih (writeAt buffer total []) (total + List.length []) (by simpa using h)

/-- Claim C4: frame round-trip through the real reader.  For every message
of either direction whose hash fields are well formed and whose framed
encoding fits the scratch buffer, reading the byte stream consisting of
exactly `attach_headers (encode M)` yields `M` back, consuming the whole
frame, with no leftover bytes reported (`next_payload_index = none`). -/
theorem frame_roundtrip (p buffer : List Nat) (fuel : Nat) {T : Type}
    (decode : List Nat → Option (T × List Nat)) (m : T)
    (hdec : decode p = some (m, []))
    (hfit : (attach_headers p).length ≤ buffer.length)
    (husize : p.length ≤ USIZE_MAX) :
    read_next_payload decode (fuel + 1) [attach_headers p] buffer 0 =
      some (.ok ⟨m, (attach_headers p).length, none⟩) := by
  have hlen := attach_headers_length p
  unfold read_next_payload
  rw [readHeaderPhase_full_frame p buffer fuel hfit]
  have htake2 : (attach_headers p ++ buffer.drop (attach_headers p).length).take
      (13 + (decBytes p.length).length) =
      [86, 101, 114, 58, 32, 49, 13, 10, 76, 101, 110, 58, 32] ++ decBytes p.length := by
    rw [attach_headers_eq p, List.append_assoc, List.append_assoc]
    rw [List.take_left' (by simp; omega)]
  simp only [htake2]
  rw [parse_all_headers_frame p.length husize]
  simp only []
  rw [if_neg (by norm_num [CURRENT_PROTOCOL_VERSION])]
  have hdelim : (2 * MESSAGE_DELIMITER.length) = 4 := by simp [MESSAGE_DELIMITER]
  simp only [hdelim]
  have hbuflen : (attach_headers p ++ buffer.drop (attach_headers p).length).length
      = buffer.length := by
    simp
    omega
  rw [if_neg (by rw [hbuflen]; omega)]
  rw [readPayloadPhase_done _ _ _ _ _ (by omega)]
  simp only []
  have hpayload : ((attach_headers p ++ buffer.drop (attach_headers p).length).take
      (13 + (decBytes p.length).length + 4 + p.length)).drop
      (13 + (decBytes p.length).length + 4) = p := by
    have htake3 : (attach_headers p ++ buffer.drop (attach_headers p).length).take
        (13 + (decBytes p.length).length + 4 + p.length) = attach_headers p := by
      rw [List.take_left' (by omega)]
    rw [htake3, attach_headers_eq p]
    rw [List.drop_left' (by simp; omega)]
  rw [hpayload, hdec]
  simp only []
  rw [if_neg (by omega)]

/-- Claim C4: frame round-trip for every protocol message of both unions.
For any well-formed message whose framed encoding fits the scratch
buffer, `read_next_payload` applied to a stream holding exactly
`attach_headers (encode M)` returns `M`, the whole frame's length, and
no leftover-bytes index. -/
theorem frame_roundtrip_both_directions :
    (∀ (m : SenderMessageV1) (buffer : List Nat) (fuel : Nat), m.wf →
      (attach_headers (encodeSenderMsg m)).length ≤ buffer.length →
      (encodeSenderMsg m).length ≤ USIZE_MAX →
      read_next_payload decodeSenderMsg (fuel + 1)
          [attach_headers (encodeSenderMsg m)] buffer 0
        = some (.ok ⟨m, (attach_headers (encodeSenderMsg m)).length, none⟩)) ∧
    (∀ (m : ReceiverMessageV1) (buffer : List Nat) (fuel : Nat), m.wf →
      (attach_headers (encodeReceiverMsg m)).length ≤ buffer.length →
      (encodeReceiverMsg m).length ≤ USIZE_MAX →
      read_next_payload decodeReceiverMsg (fuel + 1)
          [attach_headers (encodeReceiverMsg m)] buffer 0
        = some (.ok ⟨m, (attach_headers (encodeReceiverMsg m)).length, none⟩)) := by
  constructor
  · intro m buffer fuel hwf hfit husize
    apply frame_roundtrip
    · have h := decodeSenderMsg_encode m [] hwf
      rwa [List.append_nil] at h
    · exact hfit
    · exact husize
  · intro m buffer fuel hwf hfit husize
    apply frame_roundtrip
    · have h := decodeReceiverMsg_encode m [] hwf
      rwa [List.append_nil] at h
    · exact hfit
    · exact husize

/-- Witness for C4: one concrete message per direction, with a 64-byte
scratch buffer. -/
theorem frame_roundtrip_both_directions_witness :
    read_next_payload decodeSenderMsg 1
        [attach_headers (encodeSenderMsg (SenderMessageV1.Error ⟨100, [104, 105]⟩))]
        (List.replicate 64 0) 0
      = some (.ok ⟨SenderMessageV1.Error ⟨100, [104, 105]⟩,
          (attach_headers (encodeSenderMsg (SenderMessageV1.Error ⟨100, [104, 105]⟩))).length,
          none⟩) ∧
    read_next_payload decodeReceiverMsg 1
        [attach_headers (encodeReceiverMsg
          (ReceiverMessageV1.TransferComplete ⟨List.replicate 32 7⟩))]
        (List.replicate 64 0) 0
      = some (.ok ⟨ReceiverMessageV1.TransferComplete ⟨List.replicate 32 7⟩,
          (attach_headers (encodeReceiverMsg
            (ReceiverMessageV1.TransferComplete ⟨List.replicate 32 7⟩))).length,
          none⟩) := by
  have henc1 : encodeSenderMsg (SenderMessageV1.Error ⟨100, [104, 105]⟩)
      = [2, 100, 2, 104, 105] := by
    simp only [encodeSenderMsg, encodeBytes, List.length_cons, List.length_nil]
    rw [varintEncode_lt 2 (by norm_num), varintEncode_lt 100 (by norm_num)]
    rfl
  have henc2 : encodeReceiverMsg (ReceiverMessageV1.TransferComplete ⟨List.replicate 32 7⟩)
      = 2 :: List.replicate 32 7 := by
    simp only [encodeReceiverMsg]
    rw [varintEncode_lt 2 (by norm_num)]
    rfl
  have hd33 : decBytes 33 = [51, 51] := by
    rw [decBytes, decBytesAux, dif_neg (by norm_num), decBytesAux, dif_pos (by norm_num)]
  have hd5 : decBytes 5 = [53] := decBytes_lt 5 (by norm_num)
  constructor
  · apply frame_roundtrip_both_directions.1 _ _ 0 (by simp [SenderMessageV1.wf])
    · simp [henc1, attach_headers_length, hd5]
    · simp [henc1, USIZE_MAX]
  · apply frame_roundtrip_both_directions.2 _ _ 0 (by simp [ReceiverMessageV1.wf])
    · rw [henc2, attach_headers_length]
      simp only [List.length_cons, List.length_replicate]
      norm_num [hd33]
    · rw [henc2]
      simp only [List.length_cons, List.length_replicate]
      norm_num [USIZE_MAX]

/-- Claim C6 (code-bug evidence): a peer close inside the header region
does produce `UnexpectedEof`, but a close after the headers and before
the declared payload length has arrived makes the payload loop spin on
zero-byte reads forever — for every amount of fuel the reader has not
returned — instead of returning `UnexpectedEof`.  The second stream
carries headers declaring `Len: 5` followed by only 2 payload bytes. -/
theorem read_next_payload_eof_behavior :
    (read_next_payload decodeSenderMsg 2 [[86, 101, 114]] (List.replicate 64 0) 0
      = some (.err .UnexpectedEof)) ∧
    (∀ fuel, read_next_payload decodeSenderMsg fuel
        [[86, 101, 114, 58, 32, 49, 13, 10, 76, 101, 110, 58, 32, 53, 13, 10, 13, 10, 1, 2]]
        (List.replicate 64 0) 0 = none) := by
  constructor
  · decide
  · intro fuel
    cases fuel with
    | zero => rfl
    | succ f =>
      unfold read_next_payload
      have hheader : readHeaderPhase (f + 1)
          [[86, 101, 114, 58, 32, 49, 13, 10, 76, 101, 110, 58, 32, 53, 13, 10, 13, 10, 1, 2]]
          (List.replicate 64 0) 0
          = some (.ok (14,
              [86, 101, 114, 58, 32, 49, 13, 10, 76, 101, 110, 58, 32, 53, 13, 10, 13, 10, 1, 2]
                ++ List.replicate 44 0, 20, [])) := rfl
      rw [hheader]
      simp only []
      have htake : ([86, 101, 114, 58, 32, 49, 13, 10, 76, 101, 110, 58, 32, 53, 13, 10, 13,
          10, 1, 2] ++ List.replicate 44 0).take 14
          = [86, 101, 114, 58, 32, 49, 13, 10, 76, 101, 110, 58, 32] ++ decBytes 5 := by
        rw [decBytes_lt 5 (by norm_num)]
        rfl
      rw [htake, parse_all_headers_frame 5 (by norm_num [USIZE_MAX])]
      simp only []
      rw [if_neg (by norm_num [CURRENT_PROTOCOL_VERSION])]
      rw [if_neg (by simp [MESSAGE_DELIMITER])]
      rw [readPayloadPhase_closed_stream _ (f + 1) _ 20 (by simp [MESSAGE_DELIMITER])]

/-- Claim C7 (code-bug evidence): a header region with fewer than two
non-empty lines makes `parse_all_headers` index past the end of its
line vector — a panic, not an `InvalidFormat` error.  With the input
frame `"Ver: 1\r\n\r\n"` (exactly one non-empty header line) the reader
panics after parsing the version; with an empty header region (zero
lines) it panics immediately. -/
theorem parse_all_headers_too_few_lines_panics :
    (read_next_payload decodeSenderMsg 1 [[86, 101, 114, 58, 32, 49, 13, 10, 13, 10]]
        (List.replicate 64 0) 0 = some .panicked) ∧
    parse_all_headers [] = .panicked := by
  constructor
  · unfold read_next_payload
    have hheader : readHeaderPhase 1 [[86, 101, 114, 58, 32, 49, 13, 10, 13, 10]]
        (List.replicate 64 0) 0
        = some (.ok (6,
            [86, 101, 114, 58, 32, 49, 13, 10, 13, 10] ++ List.replicate 54 0, 10, [])) := rfl
    rw [hheader]
    simp only []
    have htake : ([86, 101, 114, 58, 32, 49, 13, 10, 13, 10] ++ List.replicate 54 0).take 6
        = [86, 101, 114, 58, 32, 49] := rfl
    rw [htake]
    have hparse : parse_all_headers [86, 101, 114, 58, 32, 49] = .panicked := by
      unfold parse_all_headers
      rw [splitNL_no_delim _ (by decide)]
      have htrim : trimAscii [86, 101, 114, 58, 32, 49] = [86, 101, 114, 58, 32, 49] := by
        decide
      simp only [List.filter, List.map, htrim]
      rw [parse_header_line_version]
    rw [hparse]
  · rfl

/-- Claim C3: checksums cover the transmitted bytes on both sides.  Sender:
every Data reply carries `checksum = CRC-32(data)` where `data` is what
is transmitted — the gzip output when `compressed`, the raw block bytes
otherwise.  Receiver: `process_data_block` accepts a Data message only
when CRC-32 over the transmitted `data` equals the message `checksum`. -/
theorem data_checksum_contract :
    (∀ (gz : List Nat → Option (List Nat)) (h : ConnectionHandler) (req : RequestV1)
        (data : List Nat), req.file_hash = h.expected_hash →
      ∃ d, (handle_data_request gz h req (.ok data)).2.1 = HandlerReply.dataMsg d ∧
        d.checksum = crc32 d.data ∧
        (d.compressed = true → gz data = some d.data) ∧
        (d.compressed = false → d.data = data)) ∧
    (∀ (gunzip : List Nat → Option (List Nat)) (B : Nat) (st : RState) (seq : Nat)
        (d : DataV1), (process_data_block gunzip B st seq d).1 = true →
      crc32 d.data = d.checksum) :=
  ⟨fun gz h req data hhash => handle_data_request_checksum gz h req data hhash,
   fun gunzip B st seq d hacc => process_data_block_requires_checksum gunzip B st seq d hacc⟩

/-- Witness for C3 at a concrete request on a fresh connection. -/
theorem data_checksum_contract_witness :
    ∃ d, (handle_data_request gzToy ⟨List.replicate 32 0, 4, Option.none⟩
        ⟨List.replicate 32 0, 0⟩ (.ok [0, 0, 0, 0])).2.1 = HandlerReply.dataMsg d ∧
      d.checksum = crc32 d.data ∧
      (d.compressed = true → gzToy [0, 0, 0, 0] = some d.data) ∧
      (d.compressed = false → d.data = [0, 0, 0, 0]) :=
  data_checksum_contract.1 gzToy ⟨List.replicate 32 0, 4, Option.none⟩
    ⟨List.replicate 32 0, 0⟩ [0, 0, 0, 0] rfl
